import Mathlib

/-!
Verification of the MCP engine and ReAct orchestrator of the voice-agent
repository (crates/lib/src: mcp.rs, mcp_server.rs, mcp_server_http.rs,
mcp_client.rs, mcp_client_http.rs, tool.rs, react.rs).

The Rust sources are shallowly embedded: serde_json values become the `Json`
inductive below (numbers are modelled as unbounded integers, since the claims
under study never depend on float payloads), serde serialization becomes
`Json.serializeL`, serde parsing becomes the fuel-indexed `parseVal` family,
fallible Rust functions return `Option`/`Except`, and the stateful ReAct loop
threads its transcript and counters explicitly.
-/

namespace VoiceAgent

/-- Model of `serde_json::Value`.  Object fields are kept as an ordered
association list, mirroring the order in which serde writes them; numbers are
unbounded integers (JSON floats are outside this embedding). -/
inductive Json where
  | null
  | bool (b : Bool)
  | num (n : Int)
  | str (s : String)
  | arr (elems : List Json)
  | obj (fields : List (String × Json))
deriving Repr, Inhabited

/-- The opening-brace character, written via its code point. -/
def lbraceChar : Char := Char.ofNat 123

/-- The closing-brace character, written via its code point. -/
def rbraceChar : Char := Char.ofNat 125

/-- Decimal digit character for `d < 10`. -/
def digitChar (d : Nat) : Char := Char.ofNat (48 + d)

/-- Lower-case hex digit character for `d < 16`, as emitted by serde_json. -/
def hexDigitChar (d : Nat) : Char :=
  if d < 10 then Char.ofNat (48 + d) else Char.ofNat (87 + d)

/-- Decimal digits of `n`, most significant first; `fuel` bounds the division
chain so the recursion is structural (and hence kernel-reducible). -/
def natCharsAux : Nat → Nat → List Char
  | 0, _ => []
  | fuel + 1, n =>
    if n < 10 then [digitChar n]
    else natCharsAux fuel (n / 10) ++ [digitChar (n % 10)]

/-- Decimal digits of a natural number, as written by Rust's `Display`. -/
def natChars (n : Nat) : List Char := natCharsAux (n + 1) n

/-- Decimal form of an integer: optional minus sign, then digits. -/
def intChars (n : Int) : List Char :=
  if n < 0 then '-' :: natChars n.natAbs else natChars n.toNat

/-- One character of JSON string content, escaped exactly as serde_json does:
quote and backslash get a backslash escape, the five named control characters
get their short forms, any other control character below 0x20 becomes a
`\u00XX` escape, and everything else passes through unchanged. -/
def escapeChar (c : Char) : List Char :=
  if c = '"' then ['\\', '"']
  else if c = '\\' then ['\\', '\\']
  else if c = Char.ofNat 8 then ['\\', 'b']
  else if c = '\t' then ['\\', 't']
  else if c = '\n' then ['\\', 'n']
  else if c = Char.ofNat 12 then ['\\', 'f']
  else if c = '\r' then ['\\', 'r']
  else if c.toNat < 32 then
    '\\' :: 'u' :: '0' :: '0'
      :: hexDigitChar (c.toNat / 16) :: hexDigitChar (c.toNat % 16) :: []
  else [c]

/-- JSON-escape every character of a string body. -/
def escapeChars : List Char → List Char
  | [] => []
  | c :: r => escapeChar c ++ escapeChars r

mutual
/-- Compact serialization of a `Json` value, character for character the output
of `serde_json::to_string` (no added whitespace, fields in order). -/
def Json.serializeL : Json → List Char
  | .null => "null".data
  | .bool true => "true".data
  | .bool false => "false".data
  | .num n => intChars n
  | .str s => '"' :: (escapeChars s.data ++ ['"'])
  | .arr es => '[' :: (Json.serializeItems es ++ [']'])
  | .obj fs => lbraceChar :: (Json.serializeFields fs ++ [rbraceChar])

/-- Comma-separated serialization of array elements. -/
def Json.serializeItems : List Json → List Char
  | [] => []
  | [x] => Json.serializeL x
  | x :: y :: r => Json.serializeL x ++ ',' :: Json.serializeItems (y :: r)

/-- Comma-separated serialization of object members (`"key":value`). -/
def Json.serializeFields : List (String × Json) → List Char
  | [] => []
  | [(k, v)] => '"' :: (escapeChars k.data ++ '"' :: ':' :: Json.serializeL v)
  | (k, v) :: g :: r =>
    ('"' :: (escapeChars k.data ++ '"' :: ':' :: Json.serializeL v))
      ++ ',' :: Json.serializeFields (g :: r)
end

/-- Serialization as a `String` (the form `serde_json::to_string` returns). -/
def Json.serialize (v : Json) : String := ⟨Json.serializeL v⟩

/-- JSON insignificant whitespace, the set serde_json skips between tokens. -/
def wsb (c : Char) : Bool := c == '\t' || c == '\n' || c == '\r' || c == ' '

/-- Drop leading JSON whitespace. -/
def skipWs (cs : List Char) : List Char := cs.dropWhile wsb

/-- Decimal digit test. -/
def digitb (c : Char) : Bool := '0' ≤ c && c ≤ '9'

/-- Split a leading run of decimal digits from the input. -/
def takeDigits : List Char → List Char × List Char
  | [] => ([], [])
  | c :: r =>
    if digitb c then
      let p := takeDigits r
      (c :: p.1, p.2)
    else ([], c :: r)

/-- Value of a digit string, most significant digit first. -/
def digitsVal (ds : List Char) : Nat :=
  ds.foldl (fun a c => a * 10 + (c.toNat - 48)) 0

/-- Parse a leading integer token (optional minus sign, one or more digits).
Fractional and exponent forms are outside this embedding; on such input the
remainder simply starts at the dot, so a full-document parse fails. -/
def parseIntToken : List Char → Option (Int × List Char)
  | [] => none
  | c :: r =>
    if c = '-' then
      match takeDigits r with
      | ([], _) => none
      | (ds, rest) => some (-(digitsVal ds : Int), rest)
    else
      match takeDigits (c :: r) with
      | ([], _) => none
      | (ds, rest) => some ((digitsVal ds : Int), rest)

/-- Strip an expected literal lead from the input, or fail. -/
def dropLead : List Char → List Char → Option (List Char)
  | [], cs => some cs
  | _ :: _, [] => none
  | p :: ps, c :: cs => if c = p then dropLead ps cs else none

/-- Hex digit value, accepting both cases. -/
def hexVal (c : Char) : Option Nat :=
  if c ≤ '9' && '0' ≤ c then some (c.toNat - 48)
  else if c ≤ 'f' && 'a' ≤ c then some (c.toNat - 87)
  else if c ≤ 'F' && 'A' ≤ c then some (c.toNat - 55)
  else none

/-- Single-character JSON escapes (everything except `\uXXXX`). -/
def unescapeChar (c : Char) : Option Char :=
  if c = '"' then some '"'
  else if c = '\\' then some '\\'
  else if c = '/' then some '/'
  else if c = 'n' then some '\n'
  else if c = 't' then some '\t'
  else if c = 'r' then some '\r'
  else if c = 'b' then some (Char.ofNat 8)
  else if c = 'f' then some (Char.ofNat 12)
  else none

/-- Scan a JSON string body after its opening quote, un-escaping as it goes;
returns the content characters and the remainder after the closing quote. -/
def scanString : List Char → Option (List Char × List Char)
  | [] => none
  | c :: r =>
    if c = '"' then some ([], r)
    else if c = '\\' then
      match r with
      | [] => none
      | e :: r2 =>
        if e = 'u' then
          match r2 with
          | h3 :: h2 :: h1 :: h0 :: r3 =>
            match hexVal h3, hexVal h2, hexVal h1, hexVal h0 with
            | some a, some b, some d1, some d0 =>
              match scanString r3 with
              | some (s, t) =>
                some (Char.ofNat (((a * 16 + b) * 16 + d1) * 16 + d0) :: s, t)
              | none => none
            | _, _, _, _ => none
          | _ => none
        else
          match unescapeChar e with
          | some ch =>
            match scanString r2 with
            | some (s, t) => some (ch :: s, t)
            | none => none
          | none => none
    else
      match scanString r with
      | some (s, t) => some (c :: s, t)
      | none => none

mutual
/-- Parse one JSON value; `fuel` decreases on every grammatical step so the
definition is structural.  `Json.parse` supplies one unit of fuel per input
character, which every well-formed document fits inside. -/
def parseVal : Nat → List Char → Option (Json × List Char)
  | 0, _ => none
  | fuel + 1, cs =>
    match skipWs cs with
    | [] => none
    | c :: r =>
      if c = 'n' then
        match dropLead ['u', 'l', 'l'] r with
        | some rest => some (.null, rest)
        | none => none
      else if c = 't' then
        match dropLead ['r', 'u', 'e'] r with
        | some rest => some (.bool true, rest)
        | none => none
      else if c = 'f' then
        match dropLead ['a', 'l', 's', 'e'] r with
        | some rest => some (.bool false, rest)
        | none => none
      else if c = '"' then
        match scanString r with
        | some (s, rest) => some (.str ⟨s⟩, rest)
        | none => none
      else if c = '[' then
        match skipWs r with
        | [] => none
        | d :: r2 =>
          if d = ']' then some (.arr [], r2)
          else
            match parseItems fuel (d :: r2) with
            | some (es, rest) => some (.arr es, rest)
            | none => none
      else if c = lbraceChar then
        match skipWs r with
        | [] => none
        | d :: r2 =>
          if d = rbraceChar then some (.obj [], r2)
          else
            match parseFields fuel (d :: r2) with
            | some (fs, rest) => some (.obj fs, rest)
            | none => none
      else
        match parseIntToken (c :: r) with
        | some (n, rest) => some (.num n, rest)
        | none => none

/-- Parse one or more comma-separated array elements up to the closing `]`. -/
def parseItems : Nat → List Char → Option (List Json × List Char)
  | 0, _ => none
  | fuel + 1, cs =>
    match parseVal fuel cs with
    | none => none
    | some (v, r) =>
      match skipWs r with
      | [] => none
      | d :: r2 =>
        if d = ',' then
          match parseItems fuel r2 with
          | some (vs, rest) => some (v :: vs, rest)
          | none => none
        else if d = ']' then some ([v], r2)
        else none

/-- Parse one or more comma-separated object members up to the closing brace. -/
def parseFields : Nat → List Char → Option (List (String × Json) × List Char)
  | 0, _ => none
  | fuel + 1, cs =>
    match skipWs cs with
    | [] => none
    | d :: r =>
      if d = '"' then
        match scanString r with
        | none => none
        | some (k, r1) =>
          match skipWs r1 with
          | [] => none
          | d1 :: r2 =>
            if d1 = ':' then
              match parseVal fuel r2 with
              | none => none
              | some (v, r3) =>
                match skipWs r3 with
                | [] => none
                | d2 :: r4 =>
                  if d2 = ',' then
                    match parseFields fuel r4 with
                    | some (fs, rest) => some ((⟨k⟩, v) :: fs, rest)
                    | none => none
                  else if d2 = rbraceChar then some ([(⟨k⟩, v)], r4)
                  else none
            else none
      else none
end

/-- Model of `serde_json::from_str::<Value>`: parse a complete document,
allowing surrounding whitespace and rejecting trailing garbage. -/
def Json.parse (s : String) : Option Json :=
  match parseVal (s.data.length + 1) s.data with
  | some (v, rest) => if (skipWs rest).isEmpty then some v else none
  | none => none

/-- Null test on a `Json` value. -/
def Json.isNull : Json → Bool
  | .null => true
  | _ => false

/-- First value bound to `key` in an object's field list, mirroring how serde
reads a struct field from the token stream. -/
def lookupField (fs : List (String × Json)) (key : String) : Option Json :=
  ((fs.find? fun p => p.1 == key).map fun p => p.2)

/-- Decoding of a Rust `Option<serde_json::Value>` struct field: an absent
field and an explicit JSON `null` both decode to `None` (serde cannot tell
`Some(Value::Null)` from `None`, which is load-bearing for the round-trip
claim). -/
def jsonOptField : Option Json → Option Json
  | some v => if v.isNull then none else some v
  | none => none

-- ===========================================================================
-- JSON-RPC 2.0 wire types (crates/lib/src/mcp.rs)
-- ===========================================================================

def PROTOCOL_VERSION : String := "2024-11-05"

def JSONRPC_VERSION : String := "2.0"

def PARSE_ERROR : Int := -32700

def INVALID_REQUEST : Int := -32600

def METHOD_NOT_FOUND : Int := -32601

def INVALID_PARAMS : Int := -32602

def INTERNAL_ERROR : Int := -32603

/-- Rust struct `JsonRpcRequest` (mcp.rs).  `id` is `Option<Value>`; absence
marks a notification. -/
structure JsonRpcRequest where
  jsonrpc : String
  id : Option Json
  method : String
  params : Option Json
deriving Repr

/-- Rust struct `JsonRpcError` (mcp.rs).  `code` is an `i32` in the source;
the claims never exercise its bounds, so it is modelled as an integer. -/
structure JsonRpcError where
  code : Int
  message : String
  data : Option Json
deriving Repr

/-- Rust struct `JsonRpcResponse` (mcp.rs). `id` is a plain (non-optional)
`Value`. -/
structure JsonRpcResponse where
  jsonrpc : String
  id : Json
  result : Option Json
  error : Option JsonRpcError
deriving Repr

/-- `JsonRpcRequest::new` (mcp.rs). -/
def JsonRpcRequest.new (id : Nat) (method : String) (params : Option Json) :
    JsonRpcRequest :=
  ⟨JSONRPC_VERSION, some (.num id), method, params⟩

/-- `JsonRpcRequest::notification` (mcp.rs). -/
def JsonRpcRequest.notification (method : String) (params : Option Json) :
    JsonRpcRequest :=
  ⟨JSONRPC_VERSION, none, method, params⟩

/-- `JsonRpcRequest::is_notification` (mcp.rs): a request with no id. -/
def JsonRpcRequest.is_notification (r : JsonRpcRequest) : Bool := r.id.isNone

/-- `JsonRpcResponse::success` (mcp.rs). -/
def JsonRpcResponse.success (id : Json) (result : Json) : JsonRpcResponse :=
  ⟨JSONRPC_VERSION, id, some result, none⟩

/-- `JsonRpcResponse::error` (mcp.rs); named `mkError` because `error` is the
struct field's projection in Lean. -/
def JsonRpcResponse.mkError (id : Json) (code : Int) (message : String) :
    JsonRpcResponse :=
  ⟨JSONRPC_VERSION, id, none, some ⟨code, message, none⟩⟩

/-- Serde serialization of `JsonRpcError`: fields in declaration order, `data`
skipped when `None`. -/
def JsonRpcError.toJson (e : JsonRpcError) : Json :=
  .obj ([("code", .num e.code), ("message", .str e.message)]
    ++ match e.data with
       | some d => [("data", d)]
       | none => [])

/-- Serde serialization of `JsonRpcResponse`: fields in declaration order,
`result` and `error` skipped when `None` (`skip_serializing_if`). -/
def JsonRpcResponse.toJson (r : JsonRpcResponse) : Json :=
  .obj ([("jsonrpc", .str r.jsonrpc), ("id", r.id)]
    ++ (match r.result with
        | some v => [("result", v)]
        | none => [])
    ++ (match r.error with
        | some e => [("error", e.toJson)]
        | none => []))

/-- Serde serialization of `JsonRpcRequest` (`id` and `params` skipped when
`None`). -/
def JsonRpcRequest.toJson (r : JsonRpcRequest) : Json :=
  .obj ([("jsonrpc", .str r.jsonrpc)]
    ++ (match r.id with
        | some v => [("id", v)]
        | none => [])
    ++ [("method", .str r.method)]
    ++ (match r.params with
        | some v => [("params", v)]
        | none => []))

/-- Serde deserialization of `JsonRpcError` from a JSON value: `code` and
`message` required, `data` optional (explicit `null` collapses to `None`). -/
def JsonRpcError.fromJson : Json → Option JsonRpcError
  | .obj fs =>
    match lookupField fs "code", lookupField fs "message" with
    | some (.num c), some (.str m) => some ⟨c, m, jsonOptField (lookupField fs "data")⟩
    | _, _ => none
  | _ => none

/-- Serde deserialization of `JsonRpcResponse`: `jsonrpc` (string) and `id`
(any value) required, `result` optional, `error` an optional nested struct;
unknown fields are ignored. -/
def JsonRpcResponse.fromJson : Json → Option JsonRpcResponse
  | .obj fs =>
    match lookupField fs "jsonrpc", lookupField fs "id" with
    | some (.str jr), some idv =>
      match lookupField fs "error" with
      | none => some ⟨jr, idv, jsonOptField (lookupField fs "result"), none⟩
      | some .null => some ⟨jr, idv, jsonOptField (lookupField fs "result"), none⟩
      | some ev =>
        match JsonRpcError.fromJson ev with
        | some e => some ⟨jr, idv, jsonOptField (lookupField fs "result"), some e⟩
        | none => none
    | _, _ => none
  | _ => none

/-- Serde deserialization of `JsonRpcRequest`: `jsonrpc` and `method` required
strings; `id` and `params` optional values (explicit `null` collapses to
`None`, so a request whose id is literally `null` counts as a notification). -/
def JsonRpcRequest.fromJson : Json → Option JsonRpcRequest
  | .obj fs =>
    match lookupField fs "jsonrpc", lookupField fs "method" with
    | some (.str jr), some (.str m) =>
      some ⟨jr, jsonOptField (lookupField fs "id"), m, jsonOptField (lookupField fs "params")⟩
    | _, _ => none
  | _ => none

/-- Model of `serde_json::from_str::<JsonRpcRequest>`. -/
def JsonRpcRequest.fromString (s : String) : Option JsonRpcRequest :=
  (Json.parse s).bind JsonRpcRequest.fromJson

/-- Model of `serde_json::from_str::<JsonRpcResponse>`. -/
def JsonRpcResponse.fromString (s : String) : Option JsonRpcResponse :=
  (Json.parse s).bind JsonRpcResponse.fromJson

/-- Model of `serde_json::to_string(&response)`. -/
def JsonRpcResponse.toWireString (r : JsonRpcResponse) : String :=
  Json.serialize r.toJson

-- ===========================================================================
-- SSE helpers (crates/lib/src/mcp.rs)
-- ===========================================================================

/-- The literal characters of `"event: message\ndata: "`. -/
def sseHead : List Char :=
  ['e', 'v', 'e', 'n', 't', ':', ' ', 'm', 'e', 's', 's', 'a', 'g', 'e', '\n',
   'd', 'a', 't', 'a', ':', ' ']

/-- `format_sse_event` (mcp.rs): `event: message\ndata: <json>\n\n`. -/
def format_sse_event (r : JsonRpcResponse) : String :=
  ⟨sseHead ++ Json.serializeL r.toJson ++ ['\n', '\n']⟩

/-- Drop a single trailing carriage return, as Rust's `str::lines` does for
lines terminated by `\r\n`. -/
def stripCr (l : List Char) : List Char :=
  match l.reverse with
  | '\r' :: t => t.reverse
  | _ => l

/-- Accumulator worker for `rustLines`; `acc` holds the current line
reversed. -/
def linesAux : List Char → List Char → List (List Char)
  | acc, [] => if acc.isEmpty then [] else [acc.reverse]
  | acc, c :: r =>
    if c = '\n' then stripCr acc.reverse :: linesAux [] r
    else linesAux (c :: acc) r

/-- Model of Rust `str::lines`: split at `\n` (stripping a preceding `\r`),
with no empty final fragment for a trailing newline. -/
def rustLines (cs : List Char) : List (List Char) := linesAux [] cs

/-- The `data:` payload of one SSE line, if any: `strip_prefix("data: ")`,
falling back to `strip_prefix("data:")`. -/
def sseDataOf (l : List Char) : Option (List Char) :=
  match dropLead ['d', 'a', 't', 'a', ':', ' '] l with
  | some d => some d
  | none => dropLead ['d', 'a', 't', 'a', ':'] l

/-- Join character lines with `\n` (Rust `Vec::join("\n")`). -/
def joinNl : List (List Char) → List Char
  | [] => []
  | [x] => x
  | x :: y :: r => x ++ '\n' :: joinNl (y :: r)

/-- `extract_sse_data` (mcp.rs): collect every `data:` line of the body and
join the payloads with newlines. -/
def extract_sse_data (body : String) : String :=
  ⟨joinNl ((rustLines body.data).filterMap sseDataOf)⟩

/-- Whitespace trim on both ends (model of Rust `str::trim` over the
whitespace the wire format can produce). -/
def trimChars (cs : List Char) : List Char :=
  ((skipWs ((skipWs cs).reverse)).reverse)

/-- String form of `trimChars`. -/
def rustTrim (s : String) : String := ⟨trimChars s.data⟩

/-- `parse_sse_response` (mcp.rs): try the trimmed body as plain JSON first,
then fall back to extracting and parsing the SSE `data:` payload. -/
def parse_sse_response (body : String) : Option JsonRpcResponse :=
  match JsonRpcResponse.fromString (rustTrim body) with
  | some r => some r
  | none => JsonRpcResponse.fromString (extract_sse_data body)

-- ===========================================================================
-- MCP payload types (crates/lib/src/mcp.rs)
-- ===========================================================================

/-- Rust struct `Implementation` (name and version of a peer). -/
structure Implementation where
  name : String
  version : String
deriving Repr

/-- Rust struct `ToolsCapability`. -/
structure ToolsCapability where
  list_changed : Option Bool
deriving Repr

/-- Rust struct `ServerCapabilities`. -/
structure ServerCapabilities where
  tools : Option ToolsCapability
deriving Repr

/-- Rust struct `InitializeResult`. -/
structure InitializeResult where
  protocol_version : String
  capabilities : ServerCapabilities
  server_info : Implementation
deriving Repr

/-- Rust struct `ToolInfo` (one entry of a `tools/list` result). -/
structure ToolInfo where
  name : String
  description : String
  input_schema : Json
deriving Repr

/-- Rust enum `ToolContent`, serialized with a `"type"` tag. -/
inductive ToolContent where
  | Text (text : String)
deriving Repr

/-- Rust struct `ToolsCallParams`. -/
structure ToolsCallParams where
  name : String
  arguments : Json
deriving Repr

/-- Rust struct `ToolsCallResult`. -/
structure ToolsCallResult where
  content : List ToolContent
  is_error : Option Bool
deriving Repr

/-- Serde serialization of `Implementation`. -/
def Implementation.toJson (i : Implementation) : Json :=
  .obj [("name", .str i.name), ("version", .str i.version)]

/-- Serde serialization of `ToolsCapability` (field renamed `listChanged`,
skipped when `None`). -/
def ToolsCapability.toJson (t : ToolsCapability) : Json :=
  .obj (match t.list_changed with
        | some b => [("listChanged", .bool b)]
        | none => [])

/-- Serde serialization of `ServerCapabilities` (`tools` skipped when
`None`). -/
def ServerCapabilities.toJson (s : ServerCapabilities) : Json :=
  .obj (match s.tools with
        | some t => [("tools", t.toJson)]
        | none => [])

/-- Serde serialization of `InitializeResult` (camelCase renames as in the
source). -/
def InitializeResult.toJson (r : InitializeResult) : Json :=
  .obj [("protocolVersion", .str r.protocol_version),
        ("capabilities", r.capabilities.toJson),
        ("serverInfo", r.server_info.toJson)]

/-- Serde serialization of `ToolInfo` (`input_schema` renamed
`inputSchema`). -/
def ToolInfo.toJson (t : ToolInfo) : Json :=
  .obj [("name", .str t.name), ("description", .str t.description),
        ("inputSchema", t.input_schema)]

/-- Serde serialization of a `tools/list` result. -/
def toolsListResultToJson (tools : List ToolInfo) : Json :=
  .obj [("tools", .arr (tools.map ToolInfo.toJson))]

/-- Serde serialization of `ToolContent` (internally tagged with
`"type": "text"`). -/
def ToolContent.toJson : ToolContent → Json
  | .Text t => .obj [("type", .str "text"), ("text", .str t)]

/-- Serde serialization of `ToolsCallResult` (`is_error` renamed `isError`,
skipped when `None`). -/
def ToolsCallResult.toJson (r : ToolsCallResult) : Json :=
  .obj ([("content", .arr (r.content.map ToolContent.toJson))]
    ++ match r.is_error with
       | some b => [("isError", .bool b)]
       | none => [])

/-- Serde deserialization of `ToolsCallParams`: `name` is a required string;
`arguments` has `#[serde(default)]`, so an absent (or explicit-null) field
becomes `Value::Null`. -/
def ToolsCallParams.fromJson : Json → Option ToolsCallParams
  | .obj fs =>
    match lookupField fs "name" with
    | some (.str n) =>
      some ⟨n, match jsonOptField (lookupField fs "arguments") with
               | some v => v
               | none => .null⟩
    | _ => none
  | _ => none

-- ===========================================================================
-- Errors and tool layer (crates/lib/src/lib.rs, crates/lib/src/tool.rs)
-- ===========================================================================

/-- Rust enum `AgentError` (lib.rs), with its `thiserror` display strings. -/
inductive AgentError where
  | NetworkError (msg : String)
  | ParseError (msg : String)
  | ConfigError (msg : String)
  | InternalError (msg : String)
deriving Repr, DecidableEq

/-- The `thiserror`-derived `Display` of `AgentError` (`e.to_string()`). -/
def AgentError.toString : AgentError → String
  | .NetworkError m => "Network error: " ++ m
  | .ParseError m => "Parse error: " ++ m
  | .ConfigError m => "Configuration error: " ++ m
  | .InternalError m => "Internal error: " ++ m

/-- Rust struct `ImageContent` (llm.rs). -/
structure ImageContent where
  base64 : String
  media_type : String
deriving Repr, DecidableEq

/-- Rust struct `ToolResult` (tool.rs): text plus optional images. -/
structure ToolResult where
  text : String
  images : List ImageContent
deriving Repr, DecidableEq

/-- `ToolResult::text` (tool.rs); named `ofText` because `text` is the struct
field's projection in Lean. -/
def ToolResult.ofText (s : String) : ToolResult := ⟨s, []⟩

/-- `ToolResult::with_images` (tool.rs). -/
def ToolResult.with_images (text : String) (images : List ImageContent) :
    ToolResult :=
  ⟨text, images⟩

/-- Rust struct `ToolDefinition` (llm.rs): what the model sees. -/
structure ToolDefinition where
  name : String
  description : String
  parameters : Json
deriving Repr

/-- Rust trait `ToolHandler` (tool.rs) as a record: static metadata plus the
call function.  Handler-internal mutability (e.g. `TaskTool`'s task list) is
outside this embedding; the claims under study only exercise pure handlers. -/
structure ToolHandler where
  name : String
  description : String
  dynamic_description : Option String := none
  parameters_schema : Json
  call : Json → Except AgentError ToolResult

/-- Rust trait object `&dyn ToolAccess` as a record of its three methods. -/
structure ToolAccess where
  get_definitions : List ToolDefinition
  call : String → Json → Except AgentError ToolResult
  is_empty : Bool

/-- Rust struct `ToolRegistry` (tool.rs). -/
structure ToolRegistry where
  tools : List ToolHandler

/-- `ToolRegistry::new`. -/
def ToolRegistry.new : ToolRegistry := ⟨[]⟩

/-- `ToolRegistry::register` (append-only). -/
def ToolRegistry.register (r : ToolRegistry) (t : ToolHandler) : ToolRegistry :=
  ⟨r.tools ++ [t]⟩

/-- The `ToolDefinition` a handler contributes: dynamic description when
supplied, otherwise the static one (tool.rs `get_definitions`). -/
def ToolHandler.toDefinition (t : ToolHandler) : ToolDefinition :=
  ⟨t.name, t.dynamic_description.getD t.description, t.parameters_schema⟩

/-- `ToolAccess::get_definitions` for `ToolRegistry`. -/
def ToolRegistry.get_definitions (r : ToolRegistry) : List ToolDefinition :=
  r.tools.map ToolHandler.toDefinition

/-- `ToolAccess::call` for `ToolRegistry`: locate a handler by name, else the
"Unknown tool" error. -/
def ToolRegistry.call (r : ToolRegistry) (name : String) (args : Json) :
    Except AgentError ToolResult :=
  match r.tools.find? fun t => t.name == name with
  | none => .error (.InternalError ("Unknown tool: " ++ name))
  | some t => t.call args

/-- `ToolAccess::is_empty` for `ToolRegistry`. -/
def ToolRegistry.is_empty (r : ToolRegistry) : Bool := r.tools.isEmpty

/-- Rust struct `FilteredToolRegistry` (tool.rs): a borrowed view plus the
allow-list. -/
structure FilteredToolRegistry where
  tools : List ToolHandler
  allowed : List String

/-- `ToolRegistry::filtered` (tool.rs). -/
def ToolRegistry.filtered (r : ToolRegistry) (allowed : List String) :
    FilteredToolRegistry :=
  ⟨r.tools, allowed⟩

/-- `ToolAccess::get_definitions` for the filtered view: only handlers whose
name is on the allow-list. -/
def FilteredToolRegistry.get_definitions (f : FilteredToolRegistry) :
    List ToolDefinition :=
  (f.tools.filter fun t => f.allowed.any fun a => a == t.name).map
    ToolHandler.toDefinition

/-- `ToolAccess::call` for the filtered view: names off the allow-list get the
distinct "Tool not allowed" error before any handler lookup happens. -/
def FilteredToolRegistry.call (f : FilteredToolRegistry) (name : String)
    (args : Json) : Except AgentError ToolResult :=
  if ¬ (f.allowed.any fun a => a == name) then
    .error (.InternalError ("Tool not allowed: " ++ name))
  else
    match f.tools.find? fun t => t.name == name with
    | none => .error (.InternalError ("Unknown tool: " ++ name))
    | some t => t.call args

/-- `ToolAccess::is_empty` for the filtered view. -/
def FilteredToolRegistry.is_empty (f : FilteredToolRegistry) : Bool :=
  ¬ f.tools.any fun t => f.allowed.any fun a => a == t.name

/-- Package a `ToolRegistry` as the trait object the servers and the ReAct
loop consume. -/
def ToolRegistry.toAccess (r : ToolRegistry) : ToolAccess :=
  ⟨r.get_definitions, r.call, r.is_empty⟩

/-- Package a `FilteredToolRegistry` as a trait object. -/
def FilteredToolRegistry.toAccess (f : FilteredToolRegistry) : ToolAccess :=
  ⟨f.get_definitions, f.call, f.is_empty⟩

-- ===========================================================================
-- Stdio MCP server (crates/lib/src/mcp_server.rs)
-- ===========================================================================

/-- Rust struct `McpServer`: a borrowed `&dyn ToolAccess` plus the server's
advertised identity. -/
structure McpServer where
  tools : ToolAccess
  server_name : String
  server_version : String

/-- `McpServer::new` (the version string is the crate's build-time
`CARGO_PKG_VERSION`; its concrete value is irrelevant to every claim). -/
def McpServer.new (tools : ToolAccess) (version : String) : McpServer :=
  ⟨tools, "voice-agent", version⟩

/-- `McpServer::with_info`. -/
def McpServer.with_info (s : McpServer) (name version : String) : McpServer :=
  ⟨s.tools, name, version⟩

/-- `McpServer::handle_initialize`: a success envelope carrying the protocol
version, a tools capability with `listChanged = false`, and the server's
identity.  The request's params are never passed in, let alone inspected. -/
def McpServer.handle_initialize (s : McpServer) (id : Json) : JsonRpcResponse :=
  JsonRpcResponse.success id
    (InitializeResult.toJson
      ⟨PROTOCOL_VERSION, ⟨some ⟨some false⟩⟩, ⟨s.server_name, s.server_version⟩⟩)

/-- `McpServer::handle_tools_list`: the registry's current definitions mapped
to `ToolInfo`. -/
def McpServer.handle_tools_list (s : McpServer) (id : Json) : JsonRpcResponse :=
  JsonRpcResponse.success id
    (toolsListResultToJson
      (s.tools.get_definitions.map fun d => ⟨d.name, d.description, d.parameters⟩))

/-- `McpServer::handle_tools_call`: missing or malformed params give an
`InvalidParams` error envelope; a dispatched call always gives a success
envelope, with the tool's text (and no `isError`) on `Ok` and the error's
display text plus `isError = true` on `Err`.  The serde diagnostic inside the
invalid-params message is not modelled beyond its fixed lead. -/
def McpServer.handle_tools_call (s : McpServer) (id : Json)
    (params : Option Json) : JsonRpcResponse :=
  match params with
  | none => JsonRpcResponse.mkError id INVALID_PARAMS "Missing params"
  | some p =>
    match ToolsCallParams.fromJson p with
    | none => JsonRpcResponse.mkError id INVALID_PARAMS "Invalid params"
    | some call_params =>
      match s.tools.call call_params.name call_params.arguments with
      | .ok tool_result =>
        JsonRpcResponse.success id
          (ToolsCallResult.toJson ⟨[.Text tool_result.text], none⟩)
      | .error e =>
        JsonRpcResponse.success id
          (ToolsCallResult.toJson ⟨[.Text e.toString], some true⟩)

/-- `McpServer::handle_request`: the dispatch table over the method name. -/
def McpServer.handle_request (s : McpServer) (id : Json) (method : String)
    (params : Option Json) : JsonRpcResponse :=
  if method = "initialize" then s.handle_initialize id
  else if method = "tools/list" then s.handle_tools_list id
  else if method = "tools/call" then s.handle_tools_call id params
  else JsonRpcResponse.mkError id METHOD_NOT_FOUND ("Unknown method: " ++ method)

/-- `McpServer::process`: notifications yield `None`; everything else is
dispatched with a null id standing in for a missing one. -/
def McpServer.process (s : McpServer) (request : JsonRpcRequest) :
    Option JsonRpcResponse :=
  if request.is_notification then none
  else some (s.handle_request (request.id.getD .null) request.method request.params)

/-- The parse-error reply of the run loop, `id = null`, code `-32700`.  The
serde diagnostic appended after "Parse error: " in the source is not
modelled. -/
def parseErrorResponse : JsonRpcResponse :=
  JsonRpcResponse.mkError .null PARSE_ERROR "Parse error"

/-- `McpServer::run_with` (mcp_server.rs): one iteration per input line, in
order.  The input is the sequence of lines the buffered reader yields and the
output is the sequence of reply lines written (each followed by a newline and
a flush in the source).  Blank lines are skipped, unparsable lines get the
parse-error reply, notifications get nothing, and every other request gets
exactly one serialized response. -/
def McpServer.run_with (s : McpServer) : List String → List String
  | [] => []
  | line :: rest =>
    if (skipWs line.data).isEmpty then s.run_with rest
    else
      match JsonRpcRequest.fromString line with
      | none => parseErrorResponse.toWireString :: s.run_with rest
      | some request =>
        if request.is_notification then s.run_with rest
        else
          (s.handle_request (request.id.getD .null) request.method
            request.params).toWireString :: s.run_with rest

-- ===========================================================================
-- HTTP/SSE MCP server (crates/lib/src/mcp_server_http.rs)
-- ===========================================================================

/-- The slice of a `tiny_http::Request` that `dispatch_http_request` reads:
its method and its body.  (A body-read I/O failure is an effect outside this
embedding.) -/
structure HttpRequest where
  method : String
  body : String
deriving Repr

/-- The observable reply: status code, headers in the order added, body. -/
structure HttpResponse where
  status : Nat
  headers : List (String × String)
  body : String
deriving Repr

/-- Header name for MCP session tracking (mcp.rs). -/
def MCP_SESSION_ID_HEADER : String := "Mcp-Session-Id"

/-- `content_type_sse` (mcp_server_http.rs). -/
def content_type_sse : String × String := ("Content-Type", "text/event-stream")

/-- `no_cache_header` (mcp_server_http.rs). -/
def no_cache_header : String × String := ("Cache-Control", "no-cache")

/-- `session_id_header` (mcp_server_http.rs). -/
def session_id_header (id : String) : String × String :=
  (MCP_SESSION_ID_HEADER, id)

/-- `dispatch_http_request` (mcp_server_http.rs): non-POST gets 405 with an
`Allow: POST` header; an unparsable body gets a 200 `text/event-stream`
response embedding the SSE-framed parse error; a request gets its response as
a single SSE event; a notification gets an empty 202. -/
def dispatch_http_request (handler : McpServer) (session_id : String)
    (request : HttpRequest) : HttpResponse :=
  if request.method ≠ "POST" then
    ⟨405, [("Allow", "POST")], "Method Not Allowed"⟩
  else
    match JsonRpcRequest.fromString request.body with
    | none =>
      ⟨200, [content_type_sse, session_id_header session_id],
        format_sse_event parseErrorResponse⟩
    | some rpc_request =>
      match handler.process rpc_request with
      | some rpc_response =>
        ⟨200, [content_type_sse, no_cache_header, session_id_header session_id],
          format_sse_event rpc_response⟩
      | none => ⟨202, [session_id_header session_id], ""⟩

-- ===========================================================================
-- Client-side tools/call decoding (mcp_client.rs, mcp_client_http.rs)
-- ===========================================================================

/-- The pure tail of `McpClient::call_tool` (mcp_client.rs, after the
transport produced a decoded `ToolsCallResult`): join every text block with
newlines; surface that text as `Ok`, or as an `InternalError` when
`is_error == Some(true)`. -/
def McpClient.call_tool_decode (call_result : ToolsCallResult) :
    Except AgentError String :=
  let text := String.intercalate "\n"
    (call_result.content.map fun c => match c with | .Text t => t)
  if call_result.is_error = some true then .error (.InternalError text)
  else .ok text

/-- The pure tail of `McpHttpClient::call_tool` (mcp_client_http.rs);
character-for-character the same decoding as the stdio client's. -/
def McpHttpClient.call_tool_decode (call_result : ToolsCallResult) :
    Except AgentError String :=
  let text := String.intercalate "\n"
    (call_result.content.map fun c => match c with | .Text t => t)
  if call_result.is_error = some true then .error (.InternalError text)
  else .ok text

-- ===========================================================================
-- LLM-facing data types and the ReAct loop (llm.rs, react.rs)
-- ===========================================================================

/-- Rust enum `ChatRole` (llm.rs). -/
inductive ChatRole where
  | System
  | User
  | Assistant
  | Tool
deriving Repr, DecidableEq

/-- Rust struct `ToolCallInfo` (llm.rs): one call the model asked for. -/
structure ToolCallInfo where
  id : String
  name : String
  arguments : Json
deriving Repr

/-- Rust struct `ChatMessage` (llm.rs). -/
structure ChatMessage where
  role : ChatRole
  content : String
  images : List ImageContent
  tool_calls : Option (List ToolCallInfo)
  tool_call_id : Option String
  tool_name : Option String
deriving Repr

/-- `ChatMessage::user` (llm.rs). -/
def ChatMessage.user (content : String) : ChatMessage :=
  ⟨.User, content, [], none, none, none⟩

/-- `ChatMessage::assistant` (llm.rs). -/
def ChatMessage.assistant (content : String) : ChatMessage :=
  ⟨.Assistant, content, [], none, none, none⟩

/-- `ChatMessage::system` (llm.rs). -/
def ChatMessage.system (content : String) : ChatMessage :=
  ⟨.System, content, [], none, none, none⟩

/-- `ChatMessage::assistant_tool_calls` (llm.rs): an assistant message whose
`tool_calls` preserves each call's id, name and arguments. -/
def ChatMessage.assistant_tool_calls (calls : List ToolCallInfo) : ChatMessage :=
  ⟨.Assistant, "", [], some calls, none, none⟩

/-- `ChatMessage::tool_result` (llm.rs): the plain tool observation, echoing
the call id. -/
def ChatMessage.tool_result (call_id : String) (name : String)
    (content : String) : ChatMessage :=
  ⟨.Tool, content, [], none, some call_id, some name⟩

/-- `ChatMessage::tool_result_with_images` (llm.rs). -/
def ChatMessage.tool_result_with_images (call_id : String) (name : String)
    (content : String) (images : List ImageContent) : ChatMessage :=
  ⟨.Tool, content, images, none, some call_id, some name⟩

/-- Modelled from the spec: the token-usage accounting record the ReAct loop
accumulates ("final text+reasoning+usage"); react.rs reads the three fields
logged here, but the defining revision of `TokenUsage` is not under src/. -/
structure TokenUsage where
  input_tokens : Nat
  output_tokens : Nat
  total_tokens : Nat
deriving Repr, DecidableEq

/-- `TokenUsage::default`: all counters zero. -/
def TokenUsage.default : TokenUsage := ⟨0, 0, 0⟩

/-- `TokenUsage::add`: field-wise accumulation. -/
def TokenUsage.add (t u : TokenUsage) : TokenUsage :=
  ⟨t.input_tokens + u.input_tokens, t.output_tokens + u.output_tokens,
   t.total_tokens + u.total_tokens⟩

/-- Fold an optional per-turn usage into the running total, as the
`if let Some(ref u) = usage` blocks of react.rs do. -/
def addUsage (t : TokenUsage) : Option TokenUsage → TokenUsage
  | some u => t.add u
  | none => t

/-- Rust enum `LlmResponse` in the shape react.rs consumes it: final text
with optional reasoning, or a list of tool calls, each alongside optional
usage.  (The usage fields are modelled from the spec; the revision of llm.rs
under src/ predates them.) -/
inductive LlmResponse where
  | Text (content : String) (reasoning : Option String) (usage : Option TokenUsage)
  | ToolCalls (calls : List ToolCallInfo) (usage : Option TokenUsage)

/-- A `&dyn LlmProvider`'s `chat_with_tools` method as a pure oracle: the
first argument is the number of prior invocations on this provider (the
observable state a mock like react.rs's `MockProvider` holds), then the
transcript and tool definitions.  Errors carry the `anyhow` display string. -/
def LlmClient : Type :=
  Nat → List ChatMessage → List ToolDefinition → Except String LlmResponse

/-- `DEFAULT_MAX_ITERATIONS` (react.rs). -/
def DEFAULT_MAX_ITERATIONS : Nat := 10

/-- `execute_tool_call` (react.rs): a handler error is converted into an
ordinary text observation rather than propagated. -/
def execute_tool_call (tools : ToolAccess) (call : ToolCallInfo) : ToolResult :=
  match tools.call call.name call.arguments with
  | .ok result => result
  | .error e =>
    ToolResult.ofText ("Error executing tool '" ++ call.name ++ "': " ++ e.toString)

/-- The message one tool call appends: the plain tool-result variant for a
text-only result, the with-images variant otherwise (react.rs lines 63-76). -/
def toolResultMessage (tools : ToolAccess) (call : ToolCallInfo) : ChatMessage :=
  let result := execute_tool_call tools call
  if result.images.isEmpty then
    ChatMessage.tool_result call.id call.name result.text
  else
    ChatMessage.tool_result_with_images call.id call.name result.text result.images

/-- What a finished `run` leaves behind: the returned value, the final
transcript (`messages` is `&mut` in the source), and how many times
`chat_with_tools` was invoked. -/
structure RunOutcome where
  result : Except AgentError (String × Option String × TokenUsage)
  messages : List ChatMessage
  model_calls : Nat

/-- The counted loop of `run` (react.rs): `fuel` is the number of remaining
iterations, `max_iter` only feeds the exhaustion message, `usage` the running
total and `calls` the number of model invocations so far.  Each tool-call turn
appends the assistant tool-calls message and then one result message per call,
in the order given. -/
def runIter (client : LlmClient) (tools : ToolAccess)
    (tool_defs : List ToolDefinition) (max_iter : Nat) :
    Nat → List ChatMessage → TokenUsage → Nat → RunOutcome
  | 0, msgs, _, calls =>
    ⟨.error (.InternalError
        ("ReAct loop exceeded maximum iterations (" ++ Nat.repr max_iter ++ ")")),
      msgs, calls⟩
  | fuel + 1, msgs, usage, calls =>
    match client calls msgs tool_defs with
    | .error e => ⟨.error (.NetworkError e), msgs, calls + 1⟩
    | .ok (.Text content reasoning u) =>
      ⟨.ok (content, reasoning, addUsage usage u), msgs, calls + 1⟩
    | .ok (.ToolCalls tool_calls u) =>
      runIter client tools tool_defs max_iter fuel
        (msgs ++ ChatMessage.assistant_tool_calls tool_calls
          :: tool_calls.map (toolResultMessage tools))
        (addUsage usage u) (calls + 1)

/-- `run` (react.rs): the bounded ReAct loop, `max_iterations` defaulting
to 10. -/
def run (client : LlmClient) (messages : List ChatMessage) (tools : ToolAccess)
    (max_iterations : Option Nat) : RunOutcome :=
  runIter client tools tools.get_definitions
    (max_iterations.getD DEFAULT_MAX_ITERATIONS)
    (max_iterations.getD DEFAULT_MAX_ITERATIONS) messages TokenUsage.default 0

-- ===========================================================================
-- Remainders that cannot extend a token, and concrete fixtures
-- ===========================================================================

/-- A remainder the serializer's output can safely be followed by: empty, or
headed by a non-digit (only digits could extend a rendered integer; every
JSON delimiter qualifies). -/
def stopOk : List Char → Bool
  | [] => true
  | c :: _ => !(digitb c)

/-- Fixture: a pure stand-in for tool.rs's `TaskTool` in its initial state
(its `list` action answers "No tasks."), used to instantiate the theorems
below at concrete inputs the way the repository's own tests do. -/
def sampleHandler : ToolHandler :=
  ⟨"tasks", "Manage an in-memory task list.", none, .obj [],
    fun _ => .ok (ToolResult.ofText "No tasks.")⟩

/-- Fixture: a registry holding just the task tool. -/
def sampleRegistry : ToolRegistry := ToolRegistry.new.register sampleHandler

/-- Fixture: the registry as a trait object. -/
def sampleAccess : ToolAccess := sampleRegistry.toAccess

/-- Fixture: the stdio server over the sample registry. -/
def sampleServer : McpServer := McpServer.new sampleAccess "0.1.0"

/-- Fixture mirroring react.rs's always-tool-calling mock provider. -/
def sampleClientLoop : LlmClient :=
  fun _ _ _ => .ok (.ToolCalls [⟨"call_1", "tasks", .null⟩] none)

/-- Fixture mirroring react.rs's tool-call-then-text mock provider. -/
def sampleClientOnce : LlmClient :=
  fun k _ _ =>
    if k = 0 then .ok (.ToolCalls [⟨"call_1", "tasks", .null⟩] none)
    else .ok (.Text "There are no tasks." none none)

-- ===========================================================================
-- Helper lemmas
-- ===========================================================================

/-- A line of nothing but whitespace cannot begin a JSON value. -/
theorem parseVal_of_skipWs_nil {cs : List Char} (h : skipWs cs = []) :
    ∀ fuel, parseVal fuel cs = none := by
  intro fuel
  cases fuel with
  | zero => rfl
  | succ f => simp [parseVal, h]

/-- A line that deserializes to a request is not whitespace-only. -/
theorem fromString_not_blank {line : String} {req : JsonRpcRequest}
    (h : JsonRpcRequest.fromString line = some req) :
    (skipWs line.data).isEmpty = false := by
  cases he : (skipWs line.data).isEmpty with
  | false => rfl
  | true =>
    rw [List.isEmpty_iff] at he
    rw [JsonRpcRequest.fromString, Json.parse, parseVal_of_skipWs_nil he] at h
    exact absurd h (by simp)

/-- Appending the same tail to two literals of different lengths cannot
agree. -/
theorem not_allowed_ne_unknown (name : String) :
    "Tool not allowed: " ++ name ≠ "Unknown tool: " ++ name := by
  intro h
  have h2 : ("Tool not allowed: " ++ name).data.length
      = ("Unknown tool: " ++ name).data.length := by rw [h]
  rw [String.data_append, String.data_append, List.length_append,
    List.length_append] at h2
  have e1 : ("Tool not allowed: ").data.length = 18 := rfl
  have e2 : ("Unknown tool: ").data.length = 14 := rfl
  omega

/-- Membership-style reading of the allow-list scan in tool.rs. -/
theorem any_beq_eq_mem (n : String) (l : List String) :
    (l.any fun a => a == n) = decide (n ∈ l) := by
  induction l with
  | nil => rfl
  | cons a l ih =>
    simp only [List.any_cons, ih, List.mem_cons]
    by_cases hax : a = n
    · subst hax; simp
    · have hne : n ≠ a := fun hcontr => hax hcontr.symm
      simp [hax, hne]

/-- Exhaustion shape of the counted loop: with a provider that always returns
tool calls, every unit of fuel costs exactly one model invocation and the
loop ends in the exceeded-iterations error. -/
theorem runIter_all_tool_calls (client : LlmClient) (tools : ToolAccess)
    (tool_defs : List ToolDefinition) (max_iter : Nat)
    (hclient : ∀ k ms, ∃ cs u, client k ms tool_defs = .ok (.ToolCalls cs u)) :
    ∀ fuel msgs usage calls,
      (runIter client tools tool_defs max_iter fuel msgs usage calls).model_calls
        = calls + fuel
    ∧ (runIter client tools tool_defs max_iter fuel msgs usage calls).result
        = .error (.InternalError
            ("ReAct loop exceeded maximum iterations (" ++ Nat.repr max_iter ++ ")")) := by
  intro fuel
  induction fuel with
  | zero => intro msgs usage calls; simp [runIter]
  | succ f ih =>
    intro msgs usage calls
    obtain ⟨cs, u, hcu⟩ := hclient calls msgs
    have step := ih
      (msgs ++ ChatMessage.assistant_tool_calls cs
        :: cs.map (toolResultMessage tools)) (addUsage usage u) (calls + 1)
    simp only [runIter, hcu]
    exact ⟨by rw [step.1]; omega, step.2⟩

-- ===========================================================================
-- Claim theorems
-- ===========================================================================

/-- C8: a filtered registry view rejects any name off the allow-list with the
distinct "Tool not allowed" error (never invoking or even looking up the
underlying handler, whether or not one is registered), that error differs
from the "Unknown tool" error, and its definitions are exactly those of the
registered handlers whose names are allowed. -/
theorem c8_filtered_registry (reg : ToolRegistry) (allowed : List String)
    (name : String) (args : Json) (h : name ∉ allowed) :
    (reg.filtered allowed).call name args
      = .error (.InternalError ("Tool not allowed: " ++ name))
  ∧ AgentError.InternalError ("Tool not allowed: " ++ name)
      ≠ AgentError.InternalError ("Unknown tool: " ++ name)
  ∧ (reg.filtered allowed).get_definitions
      = (reg.tools.filter fun t => t.name ∈ allowed).map ToolHandler.toDefinition := by
  refine ⟨?_, ?_, ?_⟩
  · have hany : ((reg.filtered allowed).allowed.any fun a => a == name) = false := by
      rw [ToolRegistry.filtered, any_beq_eq_mem]
      simpa using h
    simp [FilteredToolRegistry.call, hany]
  · intro hcontr
    exact not_allowed_ne_unknown name (by injection hcontr)
  · rw [FilteredToolRegistry.get_definitions, ToolRegistry.filtered]
    congr 1
    exact List.filter_congr fun t _ => any_beq_eq_mem t.name allowed

/-- C8 witness: the registry holds `"tasks"`, the allow-list is `["other"]`,
and the call is rejected with the not-allowed error. -/
theorem c8_filtered_registry_witness :
    (sampleRegistry.filtered ["other"]).call "tasks" (.obj [])
      = .error (.InternalError ("Tool not allowed: " ++ "tasks")) :=
  (c8_filtered_registry sampleRegistry ["other"] "tasks" (.obj [])
    (by simp)).1

/-- C9: both clients' `tools/call` decoding joins all text blocks with
newlines and routes the joined text through `Ok` or a domain error exactly on
`is_error == Some(true)`. -/
theorem c9_call_tool_decode (r : ToolsCallResult) :
    (r.is_error ≠ some true →
      McpClient.call_tool_decode r
        = .ok (String.intercalate "\n"
            (r.content.map fun c => match c with | .Text t => t))
      ∧ McpHttpClient.call_tool_decode r
        = .ok (String.intercalate "\n"
            (r.content.map fun c => match c with | .Text t => t)))
  ∧ (r.is_error = some true →
      McpClient.call_tool_decode r
        = .error (.InternalError (String.intercalate "\n"
            (r.content.map fun c => match c with | .Text t => t)))
      ∧ McpHttpClient.call_tool_decode r
        = .error (.InternalError (String.intercalate "\n"
            (r.content.map fun c => match c with | .Text t => t)))) := by
  constructor
  · intro h
    constructor <;> simp [McpClient.call_tool_decode, McpHttpClient.call_tool_decode, h]
  · intro h
    constructor <;> simp [McpClient.call_tool_decode, McpHttpClient.call_tool_decode, h]

/-- C9 witness: a two-block error reply decodes to a domain error carrying
the newline-joined text on both clients. -/
theorem c9_call_tool_decode_witness :
    McpClient.call_tool_decode ⟨[.Text "one", .Text "two"], some true⟩
      = .error (.InternalError (String.intercalate "\n"
          ((⟨[.Text "one", .Text "two"], some true⟩ : ToolsCallResult).content.map
            fun c => match c with | .Text t => t)))
  ∧ McpHttpClient.call_tool_decode ⟨[.Text "one", .Text "two"], none⟩
      = .ok (String.intercalate "\n"
          ((⟨[.Text "one", .Text "two"], none⟩ : ToolsCallResult).content.map
            fun c => match c with | .Text t => t)) :=
  ⟨((c9_call_tool_decode ⟨[.Text "one", .Text "two"], some true⟩).2 rfl).1,
   ((c9_call_tool_decode ⟨[.Text "one", .Text "two"], none⟩).1 (by simp)).2⟩

/-- C10: any non-notification request whose method is `initialize` gets the
fixed success result (protocol version `2024-11-05`, a tools capability, the
server's identity) regardless of its params, which are never inspected. -/
theorem c10_initialize_ignores_params (s : McpServer) (req : JsonRpcRequest)
    (i : Json) (hm : req.method = "initialize") (hid : req.id = some i) :
    s.process req
      = some (JsonRpcResponse.success i
          (InitializeResult.toJson
            ⟨"2024-11-05", ⟨some ⟨some false⟩⟩, ⟨s.server_name, s.server_version⟩⟩)) := by
  simp [McpServer.process, JsonRpcRequest.is_notification, hid, hm,
    McpServer.handle_request, McpServer.handle_initialize, PROTOCOL_VERSION]

/-- C10 witness: an initialize request with garbage params still succeeds
with the fixed result. -/
theorem c10_initialize_ignores_params_witness :
    sampleServer.process ⟨"2.0", some (.num 1), "initialize", some (.str "garbage")⟩
      = some (JsonRpcResponse.success (.num 1)
          (InitializeResult.toJson
            ⟨"2024-11-05", ⟨some ⟨some false⟩⟩,
             ⟨sampleServer.server_name, sampleServer.server_version⟩⟩)) :=
  c10_initialize_ignores_params sampleServer
    ⟨"2.0", some (.num 1), "initialize", some (.str "garbage")⟩ (.num 1) rfl rfl

/-- C1: a `tools/call` with well-formed params always gets a success envelope
(never a JSON-RPC error): one text block carrying the tool's output and no
`isError` when the call succeeds, one text block carrying the error text and
`isError = true` when it fails. -/
theorem c1_tools_call_always_success_envelope (s : McpServer) (id pj : Json)
    (p : ToolsCallParams) (hp : ToolsCallParams.fromJson pj = some p) :
    (s.handle_tools_call id (some pj)).error = none
  ∧ (∀ r, s.tools.call p.name p.arguments = .ok r →
      s.handle_tools_call id (some pj)
        = JsonRpcResponse.success id
            (ToolsCallResult.toJson ⟨[.Text r.text], none⟩))
  ∧ (∀ e, s.tools.call p.name p.arguments = .error e →
      s.handle_tools_call id (some pj)
        = JsonRpcResponse.success id
            (ToolsCallResult.toJson ⟨[.Text e.toString], some true⟩)) := by
  refine ⟨?_, ?_, ?_⟩
  · rw [McpServer.handle_tools_call]
    simp only [hp]
    cases hc : s.tools.call p.name p.arguments <;>
      simp [JsonRpcResponse.success]
  · intro r hr
    rw [McpServer.handle_tools_call]
    simp [hp, hr]
  · intro e he
    rw [McpServer.handle_tools_call]
    simp [hp, he]

/-- C1 witness: calling the sample task tool with `action: list` yields the
success envelope with the tool's text and no `isError`. -/
theorem c1_tools_call_always_success_envelope_witness :
    (sampleServer.handle_tools_call (.num 3)
        (some (.obj [("name", .str "tasks"),
                     ("arguments", .obj [("action", .str "list")])]))).error = none
  ∧ sampleServer.handle_tools_call (.num 3)
        (some (.obj [("name", .str "tasks"),
                     ("arguments", .obj [("action", .str "list")])]))
      = JsonRpcResponse.success (.num 3)
          (ToolsCallResult.toJson ⟨[.Text "No tasks."], none⟩) :=
  ⟨(c1_tools_call_always_success_envelope sampleServer (.num 3)
      (.obj [("name", .str "tasks"), ("arguments", .obj [("action", .str "list")])])
      ⟨"tasks", .obj [("action", .str "list")]⟩ rfl).1,
   (c1_tools_call_always_success_envelope sampleServer (.num 3)
      (.obj [("name", .str "tasks"), ("arguments", .obj [("action", .str "list")])])
      ⟨"tasks", .obj [("action", .str "list")]⟩ rfl).2.1
      (ToolResult.ofText "No tasks.") rfl⟩

/-- C7: a handler error does not abort the turn: `execute_tool_call` converts
it into the exact `Error executing tool '<name>': <message>` observation, the
appended message is the ordinary tool-result variant, and a tool-calls turn
always executes every call in order and proceeds to the next iteration. -/
theorem c7_tool_error_becomes_observation (tools : ToolAccess)
    (call : ToolCallInfo) (e : AgentError)
    (h : tools.call call.name call.arguments = .error e) :
    execute_tool_call tools call
      = ToolResult.ofText ("Error executing tool '" ++ call.name ++ "': " ++ e.toString)
  ∧ toolResultMessage tools call
      = ChatMessage.tool_result call.id call.name
          ("Error executing tool '" ++ call.name ++ "': " ++ e.toString)
  ∧ (∀ client tool_defs max_iter fuel msgs usage calls cs u,
      client calls msgs tool_defs = .ok (.ToolCalls cs u) →
      runIter client tools tool_defs max_iter (fuel + 1) msgs usage calls
        = runIter client tools tool_defs max_iter fuel
            (msgs ++ ChatMessage.assistant_tool_calls cs
              :: cs.map (toolResultMessage tools))
            (addUsage usage u) (calls + 1)) := by
  refine ⟨?_, ?_, ?_⟩
  · simp [execute_tool_call, h]
  · simp [toolResultMessage, execute_tool_call, h, ToolResult.ofText]
  · intro client tool_defs max_iter fuel msgs usage calls cs u hcu
    simp [runIter, hcu]

/-- C7 witness: a call naming an unregistered tool produces the error-text
observation instead of aborting. -/
theorem c7_tool_error_becomes_observation_witness :
    execute_tool_call sampleAccess ⟨"call_9", "nonexistent", .null⟩
      = ToolResult.ofText ("Error executing tool '" ++ "nonexistent" ++ "': "
          ++ AgentError.toString (.InternalError ("Unknown tool: " ++ "nonexistent"))) :=
  (c7_tool_error_becomes_observation sampleAccess ⟨"call_9", "nonexistent", .null⟩
    (.InternalError ("Unknown tool: " ++ "nonexistent")) rfl).1

/-- C2: with a provider that answers every invocation with tool calls, a run
capped at `N ≥ 1` iterations invokes the model exactly `N` times (never
`N + 1`), returns an error (never `Ok`), and that error's message contains
"exceeded maximum iterations". -/
theorem c2_react_max_iterations (client : LlmClient) (tools : ToolAccess)
    (msgs : List ChatMessage) (N : Nat) (hN : 1 ≤ N)
    (hclient : ∀ k ms, ∃ cs u,
      client k ms tools.get_definitions = .ok (.ToolCalls cs u)) :
    (run client msgs tools (some N)).model_calls = N
  ∧ (run client msgs tools (some N)).result
      = .error (.InternalError
          ("ReAct loop exceeded maximum iterations (" ++ Nat.repr N ++ ")"))
  ∧ ∃ a b, "ReAct loop exceeded maximum iterations (" ++ Nat.repr N ++ ")"
      = a ++ "exceeded maximum iterations" ++ b := by
  have key := runIter_all_tool_calls client tools tools.get_definitions N hclient
    N msgs TokenUsage.default 0
  refine ⟨?_, ?_, ?_⟩
  · rw [run]; simp only [Option.getD]; rw [key.1]; omega
  · rw [run]; simp only [Option.getD]; exact key.2
  · refine ⟨"ReAct loop ", " (" ++ Nat.repr N ++ ")", ?_⟩
    have hsplit : ("ReAct loop exceeded maximum iterations (" : String)
        = "ReAct loop " ++ "exceeded maximum iterations" ++ " (" := rfl
    rw [hsplit]
    apply String.ext
    simp [String.data_append, List.append_assoc]

/-- C2 witness: the always-tool-calling mock against the sample registry with
`N = 2` makes exactly 2 model calls and fails with the exhaustion error. -/
theorem c2_react_max_iterations_witness :
    (run sampleClientLoop [] sampleAccess (some 2)).model_calls = 2
  ∧ (run sampleClientLoop [] sampleAccess (some 2)).result
      = .error (.InternalError
          ("ReAct loop exceeded maximum iterations (" ++ Nat.repr 2 ++ ")")) :=
  ⟨(c2_react_max_iterations sampleClientLoop sampleAccess [] 2 (by omega)
      (fun _ _ => ⟨[⟨"call_1", "tasks", .null⟩], none, rfl⟩)).1,
   (c2_react_max_iterations sampleClientLoop sampleAccess [] 2 (by omega)
      (fun _ _ => ⟨[⟨"call_1", "tasks", .null⟩], none, rfl⟩)).2.1⟩

/-- C6: a model that issues one succeeding tool call and then final text makes
the run return `Ok` after exactly 2 model invocations, growing the transcript
by exactly one assistant tool-calls message (preserving the call's id, name
and arguments) followed by one tool-result message echoing the same call
id — in that order. -/
theorem c6_react_tool_then_text (client : LlmClient) (tools : ToolAccess)
    (msgs : List ChatMessage) (c : ToolCallInfo) (r : ToolResult)
    (content : String) (reasoning : Option String) (u0 u1 : Option TokenUsage)
    (N : Nat) (hN : 2 ≤ N)
    (h0 : client 0 msgs tools.get_definitions = .ok (.ToolCalls [c] u0))
    (hc : tools.call c.name c.arguments = .ok r)
    (himg : r.images = [])
    (h1 : client 1
        (msgs ++ [ChatMessage.assistant_tool_calls [c],
                  ChatMessage.tool_result c.id c.name r.text])
        tools.get_definitions = .ok (.Text content reasoning u1)) :
    run client msgs tools (some N)
      = ⟨.ok (content, reasoning, addUsage (addUsage TokenUsage.default u0) u1),
         msgs ++ [ChatMessage.assistant_tool_calls [c],
                  ChatMessage.tool_result c.id c.name r.text],
         2⟩ := by
  obtain ⟨n, rfl⟩ : ∃ n, N = n + 2 := ⟨N - 2, by omega⟩
  have hmsg : toolResultMessage tools c = ChatMessage.tool_result c.id c.name r.text := by
    simp [toolResultMessage, execute_tool_call, hc, himg]
  rw [run]
  simp only [Option.getD]
  rw [show n + 2 = (n + 1) + 1 from rfl, runIter, h0]
  simp only [List.map_cons, List.map_nil, hmsg]
  rw [runIter, h1]

/-- C6 witness: the tool-call-then-text mock over the sample registry ends
`Ok` after 2 calls with the two expected transcript entries. -/
theorem c6_react_tool_then_text_witness :
    run sampleClientOnce [] sampleAccess (some 5)
      = ⟨.ok ("There are no tasks.", none,
            addUsage (addUsage TokenUsage.default none) none),
         [] ++ [ChatMessage.assistant_tool_calls [⟨"call_1", "tasks", .null⟩],
                ChatMessage.tool_result "call_1" "tasks" "No tasks."],
         2⟩ :=
  c6_react_tool_then_text sampleClientOnce sampleAccess [] ⟨"call_1", "tasks", .null⟩
    (ToolResult.ofText "No tasks.") "There are no tasks." none none none 5
    (by omega) rfl rfl rfl rfl

/-- C3: per line of the stdio run loop — a notification produces no output
(and `process` returns `None`), a non-notification request produces exactly
one reply line, and a whitespace-only line produces no output without ending
the loop. -/
theorem c3_line_reply_discipline (s : McpServer) (line : String)
    (rest : List String) :
    ((skipWs line.data).isEmpty = true → s.run_with (line :: rest) = s.run_with rest)
  ∧ (∀ req, JsonRpcRequest.fromString line = some req → req.is_notification = true →
      s.process req = none ∧ s.run_with (line :: rest) = s.run_with rest)
  ∧ (∀ req, JsonRpcRequest.fromString line = some req → req.is_notification = false →
      s.run_with (line :: rest)
        = (s.handle_request (req.id.getD .null) req.method req.params).toWireString
            :: s.run_with rest) := by
  refine ⟨?_, ?_, ?_⟩
  · intro h
    simp [McpServer.run_with, h]
  · intro req hreq hnotif
    have hb := fromString_not_blank hreq
    exact ⟨by simp [McpServer.process, hnotif],
           by simp [McpServer.run_with, hb, hreq, hnotif]⟩
  · intro req hreq hnotif
    have hb := fromString_not_blank hreq
    simp [McpServer.run_with, hb, hreq, hnotif]

/-- C3 witness: a blank line and a notification line emit nothing; a
`tools/list` request line emits exactly one reply. -/
theorem c3_line_reply_discipline_witness :
    sampleServer.run_with [" "] = sampleServer.run_with []
  ∧ sampleServer.process ⟨"2.0", none, "notifications/initialized", none⟩ = none
  ∧ sampleServer.run_with
      ["\x7b\"jsonrpc\":\"2.0\",\"method\":\"notifications/initialized\"\x7d"]
      = sampleServer.run_with []
  ∧ sampleServer.run_with ["\x7b\"jsonrpc\":\"2.0\",\"id\":1,\"method\":\"tools/list\"\x7d"]
      = (sampleServer.handle_request
          ((some (Json.num 1)).getD .null) "tools/list" none).toWireString
          :: sampleServer.run_with [] :=
  ⟨(c3_line_reply_discipline sampleServer " " []).1 rfl,
   ((c3_line_reply_discipline sampleServer
      "\x7b\"jsonrpc\":\"2.0\",\"method\":\"notifications/initialized\"\x7d" []).2.1
      ⟨"2.0", none, "notifications/initialized", none⟩ rfl rfl).1,
   ((c3_line_reply_discipline sampleServer
      "\x7b\"jsonrpc\":\"2.0\",\"method\":\"notifications/initialized\"\x7d" []).2.1
      ⟨"2.0", none, "notifications/initialized", none⟩ rfl rfl).2,
   (c3_line_reply_discipline sampleServer
      "\x7b\"jsonrpc\":\"2.0\",\"id\":1,\"method\":\"tools/list\"\x7d" []).2.2
      ⟨"2.0", some (.num 1), "tools/list", none⟩ rfl rfl⟩

/-- C4: an unparsable line gets exactly one JSON-RPC error reply with code
`-32700` and null id and the stdio loop keeps serving; the HTTP server
answers the same situation with status 200, `Content-Type: text/event-stream`
and an SSE-framed parse error (decodable back to the `-32700`/null-id
response), never an HTTP error status. -/
theorem c4_parse_error_replies (s : McpServer) (line : String)
    (rest : List String) (session_id : String) (request : HttpRequest) :
    (JsonRpcRequest.fromString line = none → (skipWs line.data).isEmpty = false →
      s.run_with (line :: rest) = parseErrorResponse.toWireString :: s.run_with rest)
  ∧ parseErrorResponse.id = .null
  ∧ (parseErrorResponse.error.map fun e => e.code) = some (-32700)
  ∧ parseErrorResponse.result = none
  ∧ (request.method = "POST" → JsonRpcRequest.fromString request.body = none →
      dispatch_http_request s session_id request
        = ⟨200, [content_type_sse, session_id_header session_id],
            format_sse_event parseErrorResponse⟩)
  ∧ content_type_sse = ("Content-Type", "text/event-stream")
  ∧ parse_sse_response (format_sse_event parseErrorResponse)
      = some parseErrorResponse := by
  refine ⟨?_, rfl, rfl, rfl, ?_, rfl, ?_⟩
  · intro h hb
    simp [McpServer.run_with, hb, h]
  · intro hm hb
    simp [dispatch_http_request, hm, hb]
  · rfl

/-- C4 witness: the literal line "not json at all" on both transports. -/
theorem c4_parse_error_replies_witness :
    sampleServer.run_with ["not json at all"]
      = parseErrorResponse.toWireString :: sampleServer.run_with []
  ∧ dispatch_http_request sampleServer "sess-1" ⟨"POST", "not json at all"⟩
      = ⟨200, [content_type_sse, session_id_header "sess-1"],
          format_sse_event parseErrorResponse⟩ :=
  ⟨(c4_parse_error_replies sampleServer "not json at all" [] "sess-1"
      ⟨"POST", "not json at all"⟩).1 rfl rfl,
   (c4_parse_error_replies sampleServer "not json at all" [] "sess-1"
      ⟨"POST", "not json at all"⟩).2.2.2.2.1 rfl rfl⟩

-- ===========================================================================
-- Round-trip machinery: decimal digits
-- ===========================================================================

/-- Digit characters test as digits. -/
theorem digitb_digitChar (d : Nat) (h : d < 10) : digitb (digitChar d) = true := by
  interval_cases d <;> decide

/-- Digit characters carry their value. -/
theorem digitChar_val (d : Nat) (h : d < 10) : (digitChar d).toNat - 48 = d := by
  interval_cases d <;> decide

/-- A digit character differs from any non-digit character. -/
theorem digit_ne {c : Char} (h : digitb c = true) (d : Char)
    (hd : digitb d = false) : c ≠ d := by
  intro he
  subst he
  rw [h] at hd
  exact Bool.noConfusion hd

/-- The four whitespace characters, spelled out. -/
theorem wsb_true_cases {c : Char} (h : wsb c = true) :
    c = ' ' ∨ c = '\n' ∨ c = '\t' ∨ c = '\r' := by
  simp only [wsb, Bool.or_eq_true, beq_iff_eq] at h
  tauto

/-- Digits are not whitespace. -/
theorem digit_not_ws {c : Char} (h : digitb c = true) : wsb c = false := by
  cases hw : wsb c with
  | false => rfl
  | true =>
    rcases wsb_true_cases hw with rfl | rfl | rfl | rfl <;>
      exact absurd h (by decide)

/-- Everything `natCharsAux` emits is a digit. -/
theorem natCharsAux_all_digits :
    ∀ fuel n, n < fuel → ∀ c ∈ natCharsAux fuel n, digitb c = true := by
  intro fuel
  induction fuel with
  | zero => intro n hn; omega
  | succ f ih =>
    intro n hn c hc
    rw [natCharsAux] at hc
    by_cases h10 : n < 10
    · rw [if_pos h10] at hc
      rw [List.mem_singleton] at hc
      subst hc
      exact digitb_digitChar n h10
    · rw [if_neg h10] at hc
      rcases List.mem_append.mp hc with hl | hr
      · have hdiv : n / 10 < n := Nat.div_lt_self (by omega) (by omega)
        exact ih (n / 10) (by omega) c hl
      · rw [List.mem_singleton] at hr
        subst hr
        exact digitb_digitChar _ (Nat.mod_lt _ (by omega))

/-- `natCharsAux` returns at least one digit. -/
theorem natCharsAux_ne_nil : ∀ fuel n, n < fuel → natCharsAux fuel n ≠ [] := by
  intro fuel n hn
  cases fuel with
  | zero => omega
  | succ f =>
    rw [natCharsAux]
    by_cases h10 : n < 10
    · simp [h10]
    · simp [h10]

/-- Folding the digit accumulator over `natCharsAux` recovers the number. -/
theorem natCharsAux_foldl :
    ∀ fuel n, n < fuel → ∀ a,
      (natCharsAux fuel n).foldl (fun acc c => acc * 10 + (c.toNat - 48)) a
        = a * 10 ^ (natCharsAux fuel n).length + n := by
  intro fuel
  induction fuel with
  | zero => intro n hn; omega
  | succ f ih =>
    intro n hn a
    rw [natCharsAux]
    by_cases h10 : n < 10
    · rw [if_pos h10]
      simp only [List.foldl_cons, List.foldl_nil, List.length_cons,
        List.length_nil]
      rw [digitChar_val n h10, pow_one]
    · rw [if_neg h10]
      have hdiv : n / 10 < n := Nat.div_lt_self (by omega) (by omega)
      rw [List.foldl_append, ih (n / 10) (by omega) a]
      simp only [List.foldl_cons, List.foldl_nil, List.length_append,
        List.length_cons, List.length_nil]
      rw [digitChar_val _ (Nat.mod_lt _ (by omega))]
      have hqr : 10 * (n / 10) + n % 10 = n := Nat.div_add_mod n 10
      calc (a * 10 ^ (natCharsAux f (n / 10)).length + n / 10) * 10 + n % 10
          = a * (10 ^ (natCharsAux f (n / 10)).length * 10)
            + (n / 10 * 10 + n % 10) := by ring
        _ = a * 10 ^ ((natCharsAux f (n / 10)).length + (0 + 1)) + n := by
            rw [pow_succ]
            congr 1
            omega

/-- `natChars` emits only digits. -/
theorem natChars_all_digits (n : Nat) : ∀ c ∈ natChars n, digitb c = true :=
  natCharsAux_all_digits (n + 1) n (by omega)

/-- `natChars` is never empty. -/
theorem natChars_ne_nil (n : Nat) : natChars n ≠ [] :=
  natCharsAux_ne_nil (n + 1) n (by omega)

/-- Parsing the rendered decimal digits of `n` yields `n`. -/
theorem digitsVal_natChars (n : Nat) : digitsVal (natChars n) = n := by
  rw [digitsVal, natChars, natCharsAux_foldl (n + 1) n (by omega) 0]
  simp

/-- `takeDigits` takes nothing from a stop-headed remainder. -/
theorem takeDigits_stop {rest : List Char} (h : stopOk rest = true) :
    takeDigits rest = ([], rest) := by
  cases rest with
  | nil => rfl
  | cons c t =>
    rw [stopOk, Bool.not_eq_true'] at h
    simp [takeDigits, h]

/-- `takeDigits` consumes exactly a leading digit run. -/
theorem takeDigits_run :
    ∀ (ds rest : List Char), (∀ c ∈ ds, digitb c = true) →
      takeDigits rest = ([], rest) → takeDigits (ds ++ rest) = (ds, rest) := by
  intro ds
  induction ds with
  | nil => intro rest _ hr; simpa using hr
  | cons c t ih =>
    intro rest hd hr
    have hc : digitb c = true := hd c (by simp)
    have ht := ih rest (fun x hx => hd x (by simp [hx])) hr
    simp [takeDigits, hc, ht]

/-- The integer renderer and the integer token parser are inverse, given a
remainder no digit could extend. -/
theorem parseIntToken_intChars (n : Int) (rest : List Char)
    (h : stopOk rest = true) :
    parseIntToken (intChars n ++ rest) = some (n, rest) := by
  have htd : takeDigits rest = ([], rest) := takeDigits_stop h
  by_cases hn : n < 0
  · have harg : intChars n ++ rest = '-' :: (natChars n.natAbs ++ rest) := by
      simp [intChars, hn]
    obtain ⟨c, t, hct⟩ : ∃ c t, natChars n.natAbs = c :: t := by
      cases hm : natChars n.natAbs with
      | nil => exact absurd hm (natChars_ne_nil _)
      | cons c t => exact ⟨c, t, rfl⟩
    have hrun := takeDigits_run (natChars n.natAbs) rest
      (natChars_all_digits _) htd
    rw [hct, List.cons_append] at hrun
    rw [harg, parseIntToken, if_pos rfl, hct, List.cons_append, hrun]
    have hval : (digitsVal (c :: t) : Int) = (n.natAbs : Int) := by
      rw [← hct, digitsVal_natChars]
    simp only [hval]
    have hfin : -((n.natAbs : Int)) = n := by omega
    rw [hfin]
  · have harg : intChars n ++ rest = natChars n.toNat ++ rest := by
      simp [intChars, hn]
    obtain ⟨c, t, hct⟩ : ∃ c t, natChars n.toNat = c :: t := by
      cases hm : natChars n.toNat with
      | nil => exact absurd hm (natChars_ne_nil _)
      | cons c t => exact ⟨c, t, rfl⟩
    have hcd : digitb c = true := by
      apply natChars_all_digits n.toNat
      rw [hct]
      simp
    have hrun := takeDigits_run (natChars n.toNat) rest
      (natChars_all_digits _) htd
    rw [hct, List.cons_append] at hrun
    rw [harg, hct, List.cons_append, parseIntToken,
      if_neg (digit_ne hcd '-' (by decide)), hrun]
    have hval : (digitsVal (c :: t) : Int) = (n.toNat : Int) := by
      rw [← hct, digitsVal_natChars]
    simp only [hval]
    have hfin : ((n.toNat : Int)) = n := by omega
    rw [hfin]

-- ===========================================================================
-- Round-trip machinery: string escapes
-- ===========================================================================

/-- Hex digit characters carry their value through `hexVal`. -/
theorem hexVal_hexDigitChar (d : Nat) (h : d < 16) :
    hexVal (hexDigitChar d) = some d := by
  interval_cases d <;> decide

/-- Scanning one simple backslash escape undoes it. -/
theorem scanString_simple_escape (e ch : Char) (t : List Char)
    (he : e ≠ 'u') (hu : unescapeChar e = some ch) :
    scanString ('\\' :: e :: t)
      = match scanString t with
        | some (s, r) => some (ch :: s, r)
        | none => none := by
  rw [scanString.eq_def]
  dsimp only
  rw [if_neg (by decide), if_pos rfl, if_neg he, hu]

/-- Scanning one escaped character undoes the escape. -/
theorem scanString_escapeChar (c : Char) (t : List Char) :
    scanString (escapeChar c ++ t)
      = match scanString t with
        | some (s, r) => some (c :: s, r)
        | none => none := by
  rw [escapeChar]
  split_ifs with h1 h2 h3 h4 h5 h6 h7 h8
  · subst h1; exact scanString_simple_escape _ _ t (by decide) rfl
  · subst h2; exact scanString_simple_escape _ _ t (by decide) rfl
  · rw [h3]; exact scanString_simple_escape _ _ t (by decide) rfl
  · rw [h4]; exact scanString_simple_escape _ _ t (by decide) rfl
  · rw [h5]; exact scanString_simple_escape _ _ t (by decide) rfl
  · rw [h6]; exact scanString_simple_escape _ _ t (by decide) rfl
  · rw [h7]; exact scanString_simple_escape _ _ t (by decide) rfl
  · simp only [List.cons_append, List.nil_append]
    rw [scanString.eq_def]
    dsimp only
    rw [if_neg (by decide), if_pos rfl, if_pos rfl,
      show hexVal '0' = some 0 from rfl,
      hexVal_hexDigitChar (c.toNat / 16) (by omega),
      hexVal_hexDigitChar (c.toNat % 16) (Nat.mod_lt _ (by omega))]
    dsimp only
    have hcode : ((0 * 16 + 0) * 16 + c.toNat / 16) * 16 + c.toNat % 16
        = c.toNat := by omega
    rw [hcode, Char.ofNat_toNat]
  · simp only [List.singleton_append]
    rw [scanString.eq_def]
    dsimp only
    rw [if_neg h1, if_neg h2]

/-- Scanning a fully escaped string body stops exactly at the closing
quote. -/
theorem scanString_escapes :
    ∀ (cs rest : List Char),
      scanString (escapeChars cs ++ '"' :: rest) = some (cs, rest) := by
  intro cs
  induction cs with
  | nil =>
    intro rest
    rw [escapeChars, List.nil_append, scanString.eq_def]
    dsimp only
    rw [if_pos rfl]
  | cons c t ih =>
    intro rest
    rw [escapeChars, List.append_assoc, scanString_escapeChar, ih]

-- ===========================================================================
-- Round-trip machinery: serializer output shape
-- ===========================================================================

/-- Dropping leading whitespace does nothing when the head is not
whitespace. -/
theorem skipWs_cons_of_not_ws {c : Char} {t : List Char} (h : wsb c = false) :
    skipWs (c :: t) = c :: t := by
  simp [skipWs, h]

/-- Every serialized value starts with a non-whitespace character that closes
neither an array nor an object. -/
theorem serializeL_head (v : Json) :
    ∃ c t, Json.serializeL v = c :: t ∧ wsb c = false ∧ c ≠ ']' ∧ c ≠ rbraceChar := by
  cases v with
  | null =>
    refine ⟨'n', _, rfl, ?_⟩
    decide
  | bool b =>
    cases b with
    | false =>
      refine ⟨'f', _, rfl, ?_⟩
      decide
    | true =>
      refine ⟨'t', _, rfl, ?_⟩
      decide
  | num n =>
    by_cases hn : n < 0
    · exact ⟨'-', natChars n.natAbs,
        by simp [Json.serializeL, intChars, hn], by decide, by decide, by decide⟩
    · obtain ⟨c, t, hct⟩ : ∃ c t, natChars n.toNat = c :: t := by
        cases hm : natChars n.toNat with
        | nil => exact absurd hm (natChars_ne_nil _)
        | cons c t => exact ⟨c, t, rfl⟩
      have hcd : digitb c = true := by
        apply natChars_all_digits n.toNat
        rw [hct]; simp
      exact ⟨c, t, by simp [Json.serializeL, intChars, hn, hct],
        digit_not_ws hcd, digit_ne hcd ']' (by decide),
        digit_ne hcd rbraceChar (by decide)⟩
  | str s =>
    refine ⟨'"', _, rfl, ?_⟩
    decide
  | arr es =>
    refine ⟨'[', _, rfl, ?_⟩
    decide
  | obj fs =>
    refine ⟨lbraceChar, _, rfl, ?_⟩
    decide

/-- The item serialization of a nonempty list starts like its first
element. -/
theorem serializeItems_cons_head (x : Json) (xs : List Json) :
    ∃ c t, Json.serializeItems (x :: xs) = c :: t
      ∧ wsb c = false ∧ c ≠ ']' ∧ c ≠ rbraceChar := by
  obtain ⟨c, t, hct, hws, hbr, hbc⟩ := serializeL_head x
  cases xs with
  | nil => exact ⟨c, t, by simp [Json.serializeItems, hct], hws, hbr, hbc⟩
  | cons y ys =>
    exact ⟨c, t ++ ',' :: Json.serializeItems (y :: ys),
      by simp [Json.serializeItems, hct], hws, hbr, hbc⟩

/-- The member serialization of a nonempty field list starts with the key's
opening quote. -/
theorem serializeFields_cons_head (kv : String × Json)
    (fs : List (String × Json)) :
    ∃ t, Json.serializeFields (kv :: fs) = '"' :: t := by
  obtain ⟨k, v⟩ := kv
  cases fs with
  | nil => exact ⟨_, rfl⟩
  | cons g gs =>
    exact ⟨(escapeChars k.data ++ '"' :: ':' :: Json.serializeL v)
      ++ ',' :: Json.serializeFields (g :: gs), by simp [Json.serializeFields]⟩

-- ===========================================================================
-- Round-trip machinery: the serializer emits no newline or carriage return
-- ===========================================================================

/-- Hex digit characters are never line breaks. -/
theorem hexDigitChar_no_nl (d : Nat) (h : d < 16) :
    hexDigitChar d ≠ '\n' ∧ hexDigitChar d ≠ '\r' := by
  interval_cases d <;> exact ⟨by decide, by decide⟩

/-- Escaped characters contain no raw line breaks. -/
theorem escapeChar_no_nl (c : Char) :
    ∀ x ∈ escapeChar c, x ≠ '\n' ∧ x ≠ '\r' := by
  intro x hx
  rw [escapeChar] at hx
  split_ifs at hx with h1 h2 h3 h4 h5 h6 h7 h8
  · simp at hx; rcases hx with rfl | rfl <;> exact ⟨by decide, by decide⟩
  · simp at hx; rcases hx with rfl | rfl <;> exact ⟨by decide, by decide⟩
  · simp at hx; rcases hx with rfl | rfl <;> exact ⟨by decide, by decide⟩
  · simp at hx; rcases hx with rfl | rfl <;> exact ⟨by decide, by decide⟩
  · simp at hx; rcases hx with rfl | rfl <;> exact ⟨by decide, by decide⟩
  · simp at hx; rcases hx with rfl | rfl <;> exact ⟨by decide, by decide⟩
  · simp at hx; rcases hx with rfl | rfl <;> exact ⟨by decide, by decide⟩
  · rcases List.mem_cons.mp hx with rfl | hx
    · exact ⟨by decide, by decide⟩
    rcases List.mem_cons.mp hx with rfl | hx
    · exact ⟨by decide, by decide⟩
    rcases List.mem_cons.mp hx with rfl | hx
    · exact ⟨by decide, by decide⟩
    rcases List.mem_cons.mp hx with rfl | hx
    · exact ⟨by decide, by decide⟩
    rcases List.mem_cons.mp hx with rfl | hx
    · exact hexDigitChar_no_nl _ (by omega)
    rcases List.mem_cons.mp hx with rfl | hx
    · exact hexDigitChar_no_nl _ (Nat.mod_lt _ (by omega))
    · simp at hx
  · simp at hx
    subst hx
    exact ⟨h5, h7⟩

/-- Escaped string bodies contain no raw line breaks. -/
theorem escapeChars_no_nl :
    ∀ (cs : List Char), ∀ x ∈ escapeChars cs, x ≠ '\n' ∧ x ≠ '\r' := by
  intro cs
  induction cs with
  | nil => intro x hx; simp [escapeChars] at hx
  | cons c t ih =>
    intro x hx
    rw [escapeChars] at hx
    rcases List.mem_append.mp hx with hl | hr
    · exact escapeChar_no_nl c x hl
    · exact ih x hr

/-- Decimal renderings contain no line breaks. -/
theorem intChars_no_nl (n : Int) : ∀ x ∈ intChars n, x ≠ '\n' ∧ x ≠ '\r' := by
  intro x hx
  rw [intChars] at hx
  split_ifs at hx with hn
  · rcases List.mem_cons.mp hx with rfl | hm
    · exact ⟨by decide, by decide⟩
    · have hd := natChars_all_digits n.natAbs x hm
      exact ⟨digit_ne hd '\n' (by decide), digit_ne hd '\r' (by decide)⟩
  · have hd := natChars_all_digits n.toNat x hx
    exact ⟨digit_ne hd '\n' (by decide), digit_ne hd '\r' (by decide)⟩

mutual
/-- Serialized values contain no raw line breaks (so an SSE `data:` line
holds the entire document). -/
theorem serializeL_no_nl :
    ∀ (v : Json) (x : Char), x ∈ Json.serializeL v → x ≠ '\n' ∧ x ≠ '\r'
  | .null, x, hx => by
    simp [Json.serializeL] at hx
    rcases hx with rfl | rfl | rfl <;> exact ⟨by decide, by decide⟩
  | .bool true, x, hx => by
    simp [Json.serializeL] at hx
    rcases hx with rfl | rfl | rfl | rfl <;> exact ⟨by decide, by decide⟩
  | .bool false, x, hx => by
    simp [Json.serializeL] at hx
    rcases hx with rfl | rfl | rfl | rfl | rfl <;> exact ⟨by decide, by decide⟩
  | .num n, x, hx => by
    rw [Json.serializeL] at hx
    exact intChars_no_nl n x hx
  | .str s, x, hx => by
    rw [Json.serializeL] at hx
    rcases List.mem_cons.mp hx with rfl | hm
    · exact ⟨by decide, by decide⟩
    · rcases List.mem_append.mp hm with hl | hr
      · exact escapeChars_no_nl s.data x hl
      · simp at hr; subst hr; exact ⟨by decide, by decide⟩
  | .arr es, x, hx => by
    rw [Json.serializeL] at hx
    rcases List.mem_cons.mp hx with rfl | hm
    · exact ⟨by decide, by decide⟩
    · rcases List.mem_append.mp hm with hl | hr
      · exact serializeItems_no_nl es x hl
      · simp at hr; subst hr; exact ⟨by decide, by decide⟩
  | .obj fs, x, hx => by
    rw [Json.serializeL] at hx
    rcases List.mem_cons.mp hx with rfl | hm
    · exact ⟨by decide, by decide⟩
    · rcases List.mem_append.mp hm with hl | hr
      · exact serializeFields_no_nl fs x hl
      · simp at hr; subst hr; exact ⟨by decide, by decide⟩

/-- Serialized element lists contain no raw line breaks. -/
theorem serializeItems_no_nl :
    ∀ (es : List Json) (x : Char), x ∈ Json.serializeItems es → x ≠ '\n' ∧ x ≠ '\r'
  | [], x, hx => by simp [Json.serializeItems] at hx
  | [v], x, hx => serializeL_no_nl v x (by simpa [Json.serializeItems] using hx)
  | v :: w :: r, x, hx => by
    rw [Json.serializeItems] at hx
    rcases List.mem_append.mp hx with hl | hm
    · exact serializeL_no_nl v x hl
    · rcases List.mem_cons.mp hm with rfl | hr
      · exact ⟨by decide, by decide⟩
      · exact serializeItems_no_nl (w :: r) x hr

/-- Serialized member lists contain no raw line breaks. -/
theorem serializeFields_no_nl :
    ∀ (fs : List (String × Json)) (x : Char),
      x ∈ Json.serializeFields fs → x ≠ '\n' ∧ x ≠ '\r'
  | [], x, hx => by simp [Json.serializeFields] at hx
  | [(k, v)], x, hx => by
    rw [Json.serializeFields] at hx
    rcases List.mem_cons.mp hx with rfl | hm
    · exact ⟨by decide, by decide⟩
    · rcases List.mem_append.mp hm with hl | hr
      · exact escapeChars_no_nl k.data x hl
      · rcases List.mem_cons.mp hr with rfl | hr2
        · exact ⟨by decide, by decide⟩
        · rcases List.mem_cons.mp hr2 with rfl | hr3
          · exact ⟨by decide, by decide⟩
          · exact serializeL_no_nl v x hr3
  | (k, v) :: g :: r, x, hx => by
    rw [Json.serializeFields] at hx
    rcases List.mem_append.mp hx with hl | hm
    · rcases List.mem_cons.mp hl with rfl | hm2
      · exact ⟨by decide, by decide⟩
      · rcases List.mem_append.mp hm2 with hl2 | hr2
        · exact escapeChars_no_nl k.data x hl2
        · rcases List.mem_cons.mp hr2 with rfl | hr3
          · exact ⟨by decide, by decide⟩
          · rcases List.mem_cons.mp hr3 with rfl | hr4
            · exact ⟨by decide, by decide⟩
            · exact serializeL_no_nl v x hr4
    · rcases List.mem_cons.mp hm with rfl | hr
      · exact ⟨by decide, by decide⟩
      · exact serializeFields_no_nl (g :: r) x hr
end

-- ===========================================================================
-- Round-trip machinery: parser step equations
-- ===========================================================================

/-- Unfolding of the parser at an opening quote. -/
theorem parseVal_quote_step (f : Nat) (r : List Char) :
    parseVal (f + 1) ('"' :: r)
      = match scanString r with
        | some (s, rest) => some (.str ⟨s⟩, rest)
        | none => none := rfl

/-- Unfolding of the parser at an opening bracket. -/
theorem parseVal_lbracket_step (f : Nat) (l : List Char) :
    parseVal (f + 1) ('[' :: l)
      = match skipWs l with
        | [] => none
        | d :: r2 =>
          if d = ']' then some (.arr [], r2)
          else
            match parseItems f (d :: r2) with
            | some (es, rest) => some (.arr es, rest)
            | none => none := rfl

/-- Unfolding of the parser at an opening brace. -/
theorem parseVal_lbrace_step (f : Nat) (l : List Char) :
    parseVal (f + 1) (lbraceChar :: l)
      = match skipWs l with
        | [] => none
        | d :: r2 =>
          if d = rbraceChar then some (.obj [], r2)
          else
            match parseFields f (d :: r2) with
            | some (fs, rest) => some (.obj fs, rest)
            | none => none := rfl

/-- Unfolding of the parser at a character that can only start a number. -/
theorem parseVal_number_step (f : Nat) (c : Char) (t : List Char)
    (hws : wsb c = false) (h1 : c ≠ 'n') (h2 : c ≠ 't') (h3 : c ≠ 'f')
    (h4 : c ≠ '"') (h5 : c ≠ '[') (h6 : c ≠ lbraceChar) :
    parseVal (f + 1) (c :: t)
      = match parseIntToken (c :: t) with
        | some (p, rest) => some (.num p, rest)
        | none => none := by
  rw [parseVal, skipWs_cons_of_not_ws hws]
  simp only [if_neg h1, if_neg h2, if_neg h3, if_neg h4, if_neg h5, if_neg h6]

/-- One-step unfolding of `parseItems` at successor fuel. -/
theorem parseItems_succ (f : Nat) (cs : List Char) :
    parseItems (f + 1) cs
      = match parseVal f cs with
        | none => none
        | some (v, r) =>
          match skipWs r with
          | [] => none
          | d :: r2 =>
            if d = ',' then
              match parseItems f r2 with
              | some (vs, rest) => some (v :: vs, rest)
              | none => none
            else if d = ']' then some ([v], r2)
            else none := rfl

/-- Unfolding of the stop test at a cons. -/
theorem stopOk_cons (c : Char) (r : List Char) : stopOk (c :: r) = !digitb c := rfl

/-- One-step unfolding of `parseFields` at successor fuel. -/
theorem parseFields_succ (f : Nat) (cs : List Char) :
    parseFields (f + 1) cs
      = match skipWs cs with
        | [] => none
        | d :: r =>
          if d = '"' then
            match scanString r with
            | none => none
            | some (k, r1) =>
              match skipWs r1 with
              | [] => none
              | d1 :: r2 =>
                if d1 = ':' then
                  match parseVal f r2 with
                  | none => none
                  | some (v, r3) =>
                    match skipWs r3 with
                    | [] => none
                    | d2 :: r4 =>
                      if d2 = ',' then
                        match parseFields f r4 with
                        | some (fs, rest) => some ((⟨k⟩, v) :: fs, rest)
                        | none => none
                      else if d2 = rbraceChar then some ([(⟨k⟩, v)], r4)
                      else none
                else none
          else none := rfl

-- ===========================================================================
-- Round-trip machinery: the main inverse theorem
-- ===========================================================================

mutual
/-- Parsing a serialized value recovers it exactly, for any fuel above the
rendered length and any remainder no digit could extend. -/
theorem rtVal :
    ∀ (v : Json) (fuel : Nat) (rest : List Char),
      (Json.serializeL v).length < fuel → stopOk rest = true →
      parseVal fuel (Json.serializeL v ++ rest) = some (v, rest)
  | .null, fuel, rest, hf, _ => by
    cases fuel with
    | zero => exact absurd hf (by omega)
    | succ f => rfl
  | .bool true, fuel, rest, hf, _ => by
    cases fuel with
    | zero => exact absurd hf (by omega)
    | succ f => rfl
  | .bool false, fuel, rest, hf, _ => by
    cases fuel with
    | zero => exact absurd hf (by omega)
    | succ f => rfl
  | .num n, fuel, rest, hf, hs => by
    cases fuel with
    | zero => exact absurd hf (by omega)
    | succ f =>
      by_cases hn : n < 0
      · have harg : Json.serializeL (.num n) ++ rest
            = '-' :: (natChars n.natAbs ++ rest) := by
          simp [Json.serializeL, intChars, hn]
        have hback : '-' :: (natChars n.natAbs ++ rest) = intChars n ++ rest := by
          simp [intChars, hn]
        rw [harg, parseVal_number_step f '-' _ (by decide) (by decide) (by decide)
          (by decide) (by decide) (by decide) (by decide), hback,
          parseIntToken_intChars n rest hs]
      · obtain ⟨c, t, hct⟩ : ∃ c t, natChars n.toNat = c :: t := by
          cases hm : natChars n.toNat with
          | nil => exact absurd hm (natChars_ne_nil _)
          | cons c t => exact ⟨c, t, rfl⟩
        have hcd : digitb c = true := by
          apply natChars_all_digits n.toNat
          rw [hct]; simp
        have harg : Json.serializeL (.num n) ++ rest = c :: (t ++ rest) := by
          simp [Json.serializeL, intChars, hn, hct]
        have hback : c :: (t ++ rest) = intChars n ++ rest := by
          simp [intChars, hn, hct]
        rw [harg, parseVal_number_step f c _ (digit_not_ws hcd)
          (digit_ne hcd 'n' (by decide)) (digit_ne hcd 't' (by decide))
          (digit_ne hcd 'f' (by decide)) (digit_ne hcd '"' (by decide))
          (digit_ne hcd '[' (by decide)) (digit_ne hcd lbraceChar (by decide)),
          hback, parseIntToken_intChars n rest hs]
  | .str s, fuel, rest, hf, _ => by
    cases fuel with
    | zero => exact absurd hf (by omega)
    | succ f =>
      have harg : Json.serializeL (.str s) ++ rest
          = '"' :: (escapeChars s.data ++ '"' :: rest) := by
        simp [Json.serializeL]
      rw [harg, parseVal_quote_step, scanString_escapes]
  | .arr [], fuel, rest, hf, _ => by
    cases fuel with
    | zero => exact absurd hf (by omega)
    | succ f => rfl
  | .arr (x :: xs), fuel, rest, hf, _ => by
    cases fuel with
    | zero => exact absurd hf (by omega)
    | succ f =>
      obtain ⟨c, t2, hct, hws, hbr, _⟩ := serializeItems_cons_head x xs
      have harg : Json.serializeL (.arr (x :: xs)) ++ rest
          = '[' :: (Json.serializeItems (x :: xs) ++ ']' :: rest) := by
        simp [Json.serializeL]
      have hcons : Json.serializeItems (x :: xs) ++ ']' :: rest
          = c :: (t2 ++ ']' :: rest) := by rw [hct]; rfl
      have hfi : (Json.serializeItems (x :: xs)).length + 1 < f := by
        have hl : (Json.serializeL (.arr (x :: xs))).length
            = (Json.serializeItems (x :: xs)).length + 2 := by
          simp [Json.serializeL]
        omega
      have key := rtItems x xs f rest hfi
      rw [harg, parseVal_lbracket_step, hcons, skipWs_cons_of_not_ws hws]
      dsimp only
      rw [if_neg hbr, ← hcons, key]
  | .obj [], fuel, rest, hf, _ => by
    cases fuel with
    | zero => exact absurd hf (by omega)
    | succ f => rfl
  | .obj (kv :: fs), fuel, rest, hf, _ => by
    cases fuel with
    | zero => exact absurd hf (by omega)
    | succ f =>
      obtain ⟨t2, hct⟩ := serializeFields_cons_head kv fs
      have harg : Json.serializeL (.obj (kv :: fs)) ++ rest
          = lbraceChar :: (Json.serializeFields (kv :: fs) ++ rbraceChar :: rest) := by
        simp [Json.serializeL]
      have hcons : Json.serializeFields (kv :: fs) ++ rbraceChar :: rest
          = '"' :: (t2 ++ rbraceChar :: rest) := by rw [hct]; rfl
      have hfi : (Json.serializeFields (kv :: fs)).length + 1 < f := by
        have hl : (Json.serializeL (.obj (kv :: fs))).length
            = (Json.serializeFields (kv :: fs)).length + 2 := by
          simp [Json.serializeL]
        omega
      have key := rtFields kv fs f rest hfi
      rw [harg, parseVal_lbrace_step, hcons,
        skipWs_cons_of_not_ws (by decide)]
      dsimp only
      rw [if_neg (by decide), ← hcons, key]

/-- Parsing serialized array elements (up to the closing bracket) recovers
them in order. -/
theorem rtItems :
    ∀ (x : Json) (xs : List Json) (fuel : Nat) (rest : List Char),
      (Json.serializeItems (x :: xs)).length + 1 < fuel →
      parseItems fuel (Json.serializeItems (x :: xs) ++ ']' :: rest)
        = some (x :: xs, rest)
  | x, [], fuel, rest, hf => by
    cases fuel with
    | zero => exact absurd hf (by omega)
    | succ f =>
      have hone : Json.serializeItems [x] = Json.serializeL x := by
        rw [Json.serializeItems]
      have hx : (Json.serializeL x).length < f := by rw [hone] at hf; omega
      have hval := rtVal x f (']' :: rest) hx (by rw [stopOk_cons]; rfl)
      rw [hone, parseItems_succ, hval]
      dsimp only
      rw [skipWs_cons_of_not_ws (by decide)]
      dsimp only
      rw [if_neg (by decide), if_pos rfl]
  | x, y :: ys, fuel, rest, hf => by
    cases fuel with
    | zero => exact absurd hf (by omega)
    | succ f =>
      have hlen : (Json.serializeItems (x :: y :: ys)).length
          = (Json.serializeL x).length + 1
            + (Json.serializeItems (y :: ys)).length := by
        rw [Json.serializeItems]
        simp
        omega
      have hx : (Json.serializeL x).length < f := by omega
      have hys : (Json.serializeItems (y :: ys)).length + 1 < f := by omega
      have hval := rtVal x f
        (',' :: (Json.serializeItems (y :: ys) ++ ']' :: rest)) hx
        (by rw [stopOk_cons]; rfl)
      have key := rtItems y ys f rest hys
      have harg : Json.serializeItems (x :: y :: ys) ++ ']' :: rest
          = Json.serializeL x
            ++ (',' :: (Json.serializeItems (y :: ys) ++ ']' :: rest)) := by
        rw [Json.serializeItems]
        simp
      rw [harg, parseItems_succ, hval]
      dsimp only
      rw [skipWs_cons_of_not_ws (by decide)]
      dsimp only
      rw [if_pos rfl, key]

/-- Parsing serialized object members (up to the closing brace) recovers them
in order. -/
theorem rtFields :
    ∀ (kv : String × Json) (fs : List (String × Json)) (fuel : Nat)
      (rest : List Char),
      (Json.serializeFields (kv :: fs)).length + 1 < fuel →
      parseFields fuel (Json.serializeFields (kv :: fs) ++ rbraceChar :: rest)
        = some (kv :: fs, rest)
  | (k, v), [], fuel, rest, hf => by
    cases fuel with
    | zero => exact absurd hf (by omega)
    | succ f =>
      have hv : (Json.serializeL v).length < f := by
        have hl : (Json.serializeFields [(k, v)]).length
            = (escapeChars k.data).length + (Json.serializeL v).length + 3 := by
          rw [Json.serializeFields]
          simp
          omega
        omega
      have hval := rtVal v f (rbraceChar :: rest) hv (by rw [stopOk_cons]; rfl)
      have harg : Json.serializeFields [(k, v)] ++ rbraceChar :: rest
          = '"' :: (escapeChars k.data
              ++ '"' :: (':' :: (Json.serializeL v ++ rbraceChar :: rest))) := by
        rw [Json.serializeFields]
        simp
      rw [harg, parseFields_succ, skipWs_cons_of_not_ws (by decide)]
      dsimp only
      rw [if_pos rfl, scanString_escapes]
      dsimp only
      rw [skipWs_cons_of_not_ws (by decide)]
      dsimp only
      rw [if_pos rfl, hval]
      dsimp only
      rw [skipWs_cons_of_not_ws (by decide)]
      dsimp only
      rw [if_neg (by decide), if_pos rfl]
  | (k, v), g :: gs, fuel, rest, hf => by
    cases fuel with
    | zero => exact absurd hf (by omega)
    | succ f =>
      have hlen : (Json.serializeFields ((k, v) :: g :: gs)).length
          = (escapeChars k.data).length + (Json.serializeL v).length
            + (Json.serializeFields (g :: gs)).length + 4 := by
        rw [Json.serializeFields]
        simp
        omega
      have hv : (Json.serializeL v).length < f := by omega
      have hgs : (Json.serializeFields (g :: gs)).length + 1 < f := by omega
      have hval := rtVal v f
        (',' :: (Json.serializeFields (g :: gs) ++ rbraceChar :: rest)) hv
        (by rw [stopOk_cons]; rfl)
      have key := rtFields g gs f rest hgs
      have harg : Json.serializeFields ((k, v) :: g :: gs) ++ rbraceChar :: rest
          = '"' :: (escapeChars k.data
              ++ '"' :: (':' :: (Json.serializeL v
                ++ ',' :: (Json.serializeFields (g :: gs)
                  ++ rbraceChar :: rest)))) := by
        rw [Json.serializeFields]
        simp
      rw [harg, parseFields_succ, skipWs_cons_of_not_ws (by decide)]
      dsimp only
      rw [if_pos rfl, scanString_escapes]
      dsimp only
      rw [skipWs_cons_of_not_ws (by decide)]
      dsimp only
      rw [if_pos rfl, hval]
      dsimp only
      rw [skipWs_cons_of_not_ws (by decide)]
      dsimp only
      rw [if_pos rfl, key]
end

/-- Full-document round trip: parsing a serialized value recovers it. -/
theorem parse_serializeL (j : Json) : Json.parse (Json.serialize j) = some j := by
  rw [Json.parse]
  have hdata : (Json.serialize j).data = Json.serializeL j := rfl
  rw [hdata]
  have hval := rtVal j ((Json.serializeL j).length + 1) [] (by omega) rfl
  rw [List.append_nil] at hval
  rw [hval]
  rfl

/-- A value other than `null` tests as non-null. -/
theorem isNull_eq_false {v : Json} (h : v ≠ Json.null) : v.isNull = false := by
  cases v with
  | null => exact absurd rfl h
  | bool b => rfl
  | num n => rfl
  | str s => rfl
  | arr es => rfl
  | obj fs => rfl

/-- The serde error struct round-trips through JSON unless its optional
`data` payload is an explicit `null` (which collapses to `None`). -/
theorem error_fromJson_toJson (e : JsonRpcError) (hd : e.data ≠ some .null) :
    JsonRpcError.fromJson e.toJson = some e := by
  obtain ⟨code, message, data⟩ := e
  cases data with
  | none => rfl
  | some d =>
    have hdn : d ≠ .null := fun hcontr => hd (by rw [hcontr])
    have hnull : d.isNull = false := isNull_eq_false hdn
    show JsonRpcError.fromJson (.obj [("code", .num code), ("message", .str message),
      ("data", d)]) = _
    rw [JsonRpcError.fromJson]
    have hlookup : lookupField [("code", Json.num code), ("message", .str message),
        ("data", d)] "data" = some d := rfl
    try dsimp only
    rw [hlookup, jsonOptField, hnull]
    rfl

/-- The serde response struct round-trips through JSON unless `result` or the
error's `data` is an explicit JSON `null`. -/
theorem response_fromJson_toJson (r : JsonRpcResponse)
    (hres : r.result ≠ some Json.null)
    (herr : ∀ e, r.error = some e → e.data ≠ some Json.null) :
    JsonRpcResponse.fromJson r.toJson = some r := by
  obtain ⟨jr, idv, res, err⟩ := r
  cases res with
  | none =>
    cases err with
    | none => rfl
    | some e =>
      have hkey := error_fromJson_toJson e (herr e rfl)
      show JsonRpcResponse.fromJson (.obj ([("jsonrpc", .str jr), ("id", idv)]
        ++ [] ++ [("error", JsonRpcError.toJson e)])) = _
      rw [List.append_nil]
      have h1 : lookupField ([("jsonrpc", Json.str jr), ("id", idv)]
          ++ [("error", JsonRpcError.toJson e)]) "jsonrpc" = some (.str jr) := rfl
      have hid : lookupField ([("jsonrpc", Json.str jr), ("id", idv)]
          ++ [("error", JsonRpcError.toJson e)]) "id" = some idv := rfl
      have h3 : lookupField ([("jsonrpc", Json.str jr), ("id", idv)]
          ++ [("error", JsonRpcError.toJson e)]) "error"
          = some (JsonRpcError.toJson e) := rfl
      have h2 : lookupField ([("jsonrpc", Json.str jr), ("id", idv)]
          ++ [("error", JsonRpcError.toJson e)]) "result" = none := rfl
      rw [JsonRpcResponse.fromJson, h1, hid]
      try dsimp only
      rw [h3]
      obtain ⟨M, hM⟩ : ∃ M, JsonRpcError.toJson e = .obj M := ⟨_, rfl⟩
      rw [hM]
      try dsimp only
      rw [← hM, hkey, h2]
      simp [jsonOptField]
  | some v =>
    have hvn : v ≠ .null := fun hcontr => hres (by rw [hcontr])
    have hnull : v.isNull = false := isNull_eq_false hvn
    cases err with
    | none =>
      show JsonRpcResponse.fromJson (.obj ([("jsonrpc", .str jr), ("id", idv)]
        ++ [("result", v)] ++ [])) = _
      rw [List.append_nil]
      have h1 : lookupField ([("jsonrpc", Json.str jr), ("id", idv)]
          ++ [("result", v)]) "jsonrpc" = some (.str jr) := rfl
      have hid : lookupField ([("jsonrpc", Json.str jr), ("id", idv)]
          ++ [("result", v)]) "id" = some idv := rfl
      have h3 : lookupField ([("jsonrpc", Json.str jr), ("id", idv)]
          ++ [("result", v)]) "error" = none := rfl
      have h2 : lookupField ([("jsonrpc", Json.str jr), ("id", idv)]
          ++ [("result", v)]) "result" = some v := rfl
      rw [JsonRpcResponse.fromJson, h1, hid]
      try dsimp only
      rw [h3, h2, jsonOptField, hnull]
      simp
    | some e =>
      have hkey := error_fromJson_toJson e (herr e rfl)
      have h1 : lookupField ([("jsonrpc", Json.str jr), ("id", idv)]
          ++ [("result", v)] ++ [("error", JsonRpcError.toJson e)]) "jsonrpc"
          = some (.str jr) := rfl
      have hid : lookupField ([("jsonrpc", Json.str jr), ("id", idv)]
          ++ [("result", v)] ++ [("error", JsonRpcError.toJson e)]) "id"
          = some idv := rfl
      have h3 : lookupField ([("jsonrpc", Json.str jr), ("id", idv)]
          ++ [("result", v)] ++ [("error", JsonRpcError.toJson e)]) "error"
          = some (JsonRpcError.toJson e) := rfl
      have h2 : lookupField ([("jsonrpc", Json.str jr), ("id", idv)]
          ++ [("result", v)] ++ [("error", JsonRpcError.toJson e)]) "result"
          = some v := rfl
      show JsonRpcResponse.fromJson (.obj ([("jsonrpc", .str jr), ("id", idv)]
        ++ [("result", v)] ++ [("error", JsonRpcError.toJson e)])) = _
      rw [JsonRpcResponse.fromJson, h1, hid]
      try dsimp only
      rw [h3]
      obtain ⟨M, hM⟩ : ∃ M, JsonRpcError.toJson e = .obj M := ⟨_, rfl⟩
      rw [hM]
      try dsimp only
      rw [← hM, hkey, h2, jsonOptField, hnull]
      simp

-- ===========================================================================
-- Round-trip machinery: SSE framing
-- ===========================================================================

/-- Stripping a literal lead from itself-plus-remainder succeeds. -/
theorem dropLead_self : ∀ (p t : List Char), dropLead p (p ++ t) = some t := by
  intro p
  induction p with
  | nil => intro t; rfl
  | cons c ps ih =>
    intro t
    rw [List.cons_append, dropLead, if_pos rfl, ih]

/-- Lines without a carriage return are untouched by the CRLF strip. -/
theorem stripCr_of_no_cr (l : List Char) (h : ∀ x ∈ l, x ≠ '\r') :
    stripCr l = l := by
  rw [stripCr.eq_def]
  split
  · rename_i t heq
    have hmem : '\r' ∈ l := by
      rw [← List.mem_reverse, heq]
      simp
    exact absurd rfl (h _ hmem)
  · rfl

/-- Splitting off one newline-terminated line whose content holds no
newline. -/
theorem linesAux_split :
    ∀ (J acc rest : List Char), (∀ x ∈ J, x ≠ '\n') →
      linesAux acc (J ++ '\n' :: rest)
        = stripCr (acc.reverse ++ J) :: linesAux [] rest := by
  intro J
  induction J with
  | nil =>
    intro acc rest _
    rw [List.nil_append, linesAux, if_pos rfl, List.append_nil]
  | cons c J2 ih =>
    intro acc rest hnl
    have hc : c ≠ '\n' := hnl c (by simp)
    rw [List.cons_append, linesAux, if_neg hc,
      ih (c :: acc) rest (fun x hx => hnl x (by simp [hx]))]
    simp

/-- Extracting the `data:` payload of a formatted SSE event recovers exactly
the serialized response. -/
theorem extract_format_sse_event (r : JsonRpcResponse) :
    extract_sse_data (format_sse_event r) = Json.serialize r.toJson := by
  have hJnl : ∀ x ∈ Json.serializeL r.toJson, x ≠ '\n' :=
    fun x hx => (serializeL_no_nl _ x hx).1
  have hJcr : ∀ x ∈ Json.serializeL r.toJson, x ≠ '\r' :=
    fun x hx => (serializeL_no_nl _ x hx).2
  have hshape : (format_sse_event r).data
      = ['e', 'v', 'e', 'n', 't', ':', ' ', 'm', 'e', 's', 's', 'a', 'g', 'e']
        ++ '\n' :: ((['d', 'a', 't', 'a', ':', ' '] ++ Json.serializeL r.toJson)
          ++ '\n' :: ['\n']) := rfl
  have hrl : rustLines (format_sse_event r).data
      = linesAux [] (format_sse_event r).data := rfl
  have hDnl : ∀ y ∈ (['d', 'a', 't', 'a', ':', ' '] : List Char), y ≠ '\n' := by
    decide
  have hDcr : ∀ y ∈ (['d', 'a', 't', 'a', ':', ' '] : List Char), y ≠ '\r' := by
    decide
  rw [extract_sse_data, hrl, hshape,
    linesAux_split _ [] _ (by decide),
    linesAux_split _ [] _ (fun x hx => by
      rcases List.mem_append.mp hx with hl | hr
      · exact hDnl x hl
      · exact hJnl x hr)]
  have he1 : stripCr (([] : List Char).reverse
      ++ ['e', 'v', 'e', 'n', 't', ':', ' ', 'm', 'e', 's', 's', 'a', 'g', 'e'])
      = ['e', 'v', 'e', 'n', 't', ':', ' ', 'm', 'e', 's', 's', 'a', 'g', 'e'] := rfl
  have he2 : stripCr (([] : List Char).reverse
      ++ (['d', 'a', 't', 'a', ':', ' '] ++ Json.serializeL r.toJson))
      = ['d', 'a', 't', 'a', ':', ' '] ++ Json.serializeL r.toJson := by
    rw [List.reverse_nil, List.nil_append]
    apply stripCr_of_no_cr
    intro x hx
    rcases List.mem_append.mp hx with hl | hr
    · exact hDcr x hl
    · exact hJcr x hr
  have he3 : linesAux [] ['\n'] = [[]] := rfl
  rw [he1, he2, he3]
  have hd1 : sseDataOf
      ['e', 'v', 'e', 'n', 't', ':', ' ', 'm', 'e', 's', 's', 'a', 'g', 'e']
      = none := rfl
  have hd2 : sseDataOf (['d', 'a', 't', 'a', ':', ' '] ++ Json.serializeL r.toJson)
      = some (Json.serializeL r.toJson) := by
    rw [sseDataOf, dropLead_self]
  have hd3 : sseDataOf [] = none := rfl
  rw [List.filterMap_cons, hd1, List.filterMap_cons, hd2, List.filterMap_cons,
    hd3, List.filterMap_nil]
  rfl

/-- A number token cannot start at the letter `e`, so neither can a value. -/
theorem parseVal_e_head (fuel : Nat) (u : List Char) :
    parseVal fuel ('e' :: u) = none := by
  cases fuel with
  | zero => rfl
  | succ f =>
    rw [parseVal_number_step f 'e' u (by decide) (by decide) (by decide)
      (by decide) (by decide) (by decide) (by decide)]
    have ht : takeDigits ('e' :: u) = ([], 'e' :: u) := by
      rw [takeDigits]
      simp [digitb]
    rw [parseIntToken, if_neg (by decide), ht]

/-- Trimming keeps the first non-whitespace character in place. -/
theorem trimChars_head {cs : List Char} {c : Char} {t : List Char}
    (h : skipWs cs = c :: t) (hc : wsb c = false) :
    ∃ u, trimChars cs = c :: u := by
  rw [trimChars, h]
  have hrev : (c :: t).reverse = t.reverse ++ [c] := by simp
  rw [hrev]
  have hsuffix : skipWs (t.reverse ++ [c]) <:+ t.reverse ++ [c] :=
    List.dropWhile_suffix _
  have hne : skipWs (t.reverse ++ [c]) ≠ [] := by
    intro hcontr
    rw [skipWs, List.dropWhile_eq_nil_iff] at hcontr
    have := hcontr c (by simp)
    rw [hc] at this
    exact Bool.noConfusion this
  have hpref : (skipWs (t.reverse ++ [c])).reverse <+: c :: t := by
    have hp := List.reverse_prefix.mpr hsuffix
    rwa [List.reverse_append, List.reverse_cons, List.reverse_nil,
      List.nil_append, List.reverse_reverse] at hp
  obtain ⟨s, hs⟩ := hpref
  cases hMr : (skipWs (t.reverse ++ [c])).reverse with
  | nil =>
    exfalso
    apply hne
    have := congrArg List.reverse hMr
    simpa using this
  | cons a u =>
    rw [hMr, List.cons_append] at hs
    have ha : a = c := by injection hs
    exact ⟨u, by rw [ha]⟩

/-- The plain-JSON attempt of `parse_sse_response` always fails on a real
SSE body, whose first character is the `e` of `event:`. -/
theorem fromString_trim_sse_none (r : JsonRpcResponse) :
    JsonRpcResponse.fromString (rustTrim (format_sse_event r)) = none := by
  obtain ⟨T, hT⟩ : ∃ T, (format_sse_event r).data = 'e' :: T := ⟨_, rfl⟩
  have hskip : skipWs (format_sse_event r).data = 'e' :: T := by
    rw [hT]
    exact skipWs_cons_of_not_ws (by decide)
  obtain ⟨u, hu⟩ := trimChars_head hskip (by decide)
  have hparse : Json.parse (rustTrim (format_sse_event r)) = none := by
    rw [Json.parse]
    have hd : (rustTrim (format_sse_event r)).data
        = trimChars (format_sse_event r).data := rfl
    rw [hd, hu, parseVal_e_head]
  rw [JsonRpcResponse.fromString, hparse]
  rfl

/-- C5 counterexample: a response whose `result` is `Some(Value::Null)` does
not survive the SSE round trip structurally — serde's `Option<Value>`
decoding collapses the explicit `null` to `None`. -/
theorem c5_sse_roundtrip_counterexample :
    parse_sse_response (format_sse_event ⟨"2.0", .num 1, some .null, none⟩)
      ≠ some ⟨"2.0", .num 1, some .null, none⟩ := by
  intro hcontr
  have hval : parse_sse_response (format_sse_event ⟨"2.0", .num 1, some .null, none⟩)
      = some ⟨"2.0", .num 1, none, none⟩ := rfl
  rw [hval] at hcontr
  simp at hcontr

/-- C5 (amended): SSE-encoding then decoding is the structural identity for
every response in which neither `result` nor the error's `data` is an
explicit JSON `null`; `parse_sse_response` accepts a bare JSON body as-is and
falls back to the bare-JSON interpretation whenever the SSE interpretation
fails to parse. -/
theorem c5_sse_roundtrip_amended :
    (∀ r : JsonRpcResponse, r.result ≠ some Json.null →
      (∀ e, r.error = some e → e.data ≠ some Json.null) →
      parse_sse_response (format_sse_event r) = some r)
  ∧ (∀ (s : String) (r : JsonRpcResponse),
      JsonRpcResponse.fromString (rustTrim s) = some r →
      parse_sse_response s = some r)
  ∧ (∀ s : String, JsonRpcResponse.fromString (extract_sse_data s) = none →
      parse_sse_response s = JsonRpcResponse.fromString (rustTrim s))
  ∧ (∀ (s : String) (r : JsonRpcResponse),
      JsonRpcResponse.fromString (rustTrim s) = none →
      JsonRpcResponse.fromString (extract_sse_data s) = some r →
      parse_sse_response s = some r) := by
  refine ⟨?_, ?_, ?_, ?_⟩
  · intro r hres herr
    rw [parse_sse_response, fromString_trim_sse_none r]
    try dsimp only
    rw [extract_format_sse_event, JsonRpcResponse.fromString, parse_serializeL]
    show JsonRpcResponse.fromJson r.toJson = some r
    exact response_fromJson_toJson r hres herr
  · intro s r h
    rw [parse_sse_response, h]
  · intro s h
    rw [parse_sse_response]
    cases hh : JsonRpcResponse.fromString (rustTrim s) with
    | some r2 => rfl
    | none => rw [h]
  · intro s r h1 h2
    rw [parse_sse_response, h1]
    try dsimp only
    rw [h2]

/-- C5 witness: a concrete non-null-result response round-trips through SSE,
and a concrete bare JSON body is accepted directly. -/
theorem c5_sse_roundtrip_witness :
    parse_sse_response (format_sse_event ⟨"2.0", .num 7, some (.str "ok"), none⟩)
      = some ⟨"2.0", .num 7, some (.str "ok"), none⟩
  ∧ parse_sse_response "\x7b\"jsonrpc\":\"2.0\",\"id\":2,\"result\":3\x7d"
      = some ⟨"2.0", .num 2, some (.num 3), none⟩ :=
  ⟨c5_sse_roundtrip_amended.1 ⟨"2.0", .num 7, some (.str "ok"), none⟩
      (fun h => by injection h with h2; exact Json.noConfusion h2)
      (fun e he => Option.noConfusion he),
   c5_sse_roundtrip_amended.2.1 "\x7b\"jsonrpc\":\"2.0\",\"id\":2,\"result\":3\x7d"
      ⟨"2.0", .num 2, some (.num 3), none⟩ rfl⟩

end VoiceAgent
